import Mathlib

/-!
Shallow embedding of the host-side software of the zeST Atari ST clone
(directory `src/linux`): the floppy image codec (`floppy_img.c`), the
ACSI hard-disk target engine (`acsi.c`), the floppy positional handler
(`floppy.c`) and GEMDOS path resolution (`gemdos.c`), together with
proofs settling the specification claims C1..C10.

Conventions: C byte buffers become `List Nat` with values below 256;
machine integers become `Nat` with explicit truncations (`% 256`,
`&&& 0xff`, `% 65536`) exactly where the C code stores into a narrower
type; C functions that can crash (NULL dereference) or fail return
`Option`.
-/

namespace Zest

/-! ### Constants from acsi.c -/

/-- ACSI status code `STATUS_OK` (acsi.c line 30). -/
def STATUS_OK : Nat := 0

/-- ACSI status code `STATUS_ERROR` (acsi.c line 31). -/
def STATUS_ERROR : Nat := 2

/-- Sense code `ERROR_INVADDR` = invalid block address (acsi.c line 38). -/
def ERROR_INVADDR : Nat := 0x21000d

/-! ### Floppy image geometry and `flopimg_trackpos` (floppy_img.c lines 499-507) -/

/-- The geometry fields `ntracks`/`nsides` of `struct Flopimg`. -/
structure Geom where
  ntracks : Nat
  nsides : Nat
deriving Repr, DecidableEq

/-- `flopimg_trackpos` (floppy_img.c lines 499-507): enlarges the recorded
geometry when the addressed track or side is beyond it, and returns the byte
position `(track*nsides+side)*6250` (with the updated `nsides`) of the track
inside the in-memory MFM buffer. -/
def flopimg_trackpos (g : Geom) (track side : Nat) : Geom × Nat :=
  let g1 := if g.ntracks ≤ track then { g with ntracks := track + 1 } else g
  let g2 := if g1.nsides ≤ side then { g1 with nsides := side + 1 } else g1
  (g2, (track * g2.nsides + side) * 6250)

/-- Final geometry after a sequence of further `flopimg_trackpos` calls. -/
def trackpos_run (g : Geom) : List (Nat × Nat) → Geom
  | [] => g
  | c :: cs => trackpos_run (flopimg_trackpos g c.1 c.2).1 cs

/-! ### ACSI disk state and command engine (acsi.c) -/

/-- Per-target disk state, `struct __acsi_disk` (acsi.c lines 45-51), without
the POSIX file handle. -/
structure AcsiDisk where
  sectors : Nat
  lba : Nat
  sense : Nat
  report_lba : Bool
deriving Repr, DecidableEq

/-- The DMA-engine part of the acsi.c globals (lines 124-127) together with
the disk currently addressed by `dev_id` and the value last posted to
`*acsireg`.  `loads` logs, in order, the id (0 or 1) of the 512-byte DMA
buffer into which each successive 512-byte data slice is placed. -/
structure Machine where
  disk : AcsiDisk
  dma_mode : Nat
  dma_buf_id : Nat
  dma_rem_bs : Nat
  acsireg : Nat
  loads : List Nat
deriving Repr, DecidableEq

/-- `set_error` (acsi.c lines 129-133): record sense data and post
`STATUS_ERROR`. -/
def set_error (m : Machine) (err : Nat) (rep : Bool) : Machine :=
  { m with disk := { m.disk with sense := err, report_lba := rep },
           acsireg := STATUS_ERROR }

/-- `read_next` (acsi.c lines 135-158), ordinary-disk case: when no blocks
remain post `STATUS_OK` and go idle, otherwise advance `lba`, post the next
burst of up to 32 sixteen-byte blocks from the current buffer and, if more
blocks will remain, flip buffers and load the next 512-byte slice into the
other buffer. -/
def read_next (m : Machine) : Machine :=
  if m.dma_rem_bs = 0 then
    { m with acsireg := STATUS_OK, dma_mode := 0 }
  else
    let m1 := { m with disk := { m.disk with lba := m.disk.lba + 1 } }
    let nbs := min m1.dma_rem_bs 32
    let m2 := { m1 with acsireg := 0x100 ||| ((nbs - 1) <<< 3) ||| m1.dma_buf_id,
                        dma_rem_bs := m1.dma_rem_bs - nbs }
    if 0 < m2.dma_rem_bs then
      { m2 with dma_buf_id := m2.dma_buf_id ^^^ 1,
                loads := m2.loads ++ [m2.dma_buf_id ^^^ 1] }
    else m2

/-- `acsi_wait_data` (acsi.c lines 193-200): initiate a guest-to-host DMA
write of `n_bytes` bytes. -/
def acsi_wait_data (m : Machine) (n_bytes : Nat) : Machine :=
  let rem := (n_bytes + 15) / 16
  let nbs := min rem 32
  { m with dma_mode := 2, dma_buf_id := 0, dma_rem_bs := rem,
           acsireg := 0x200 ||| ((nbs - 1) <<< 3) ||| 0 }

/-- The 24-bit block address `(acsi_command[1]<<8|acsi_command[2])<<8|acsi_command[3]`
decoded by the READ(6)/WRITE(6) handlers (acsi.c lines 383 and 403). -/
def lba24 (c1 c2 c3 : Nat) : Nat := ((c1 <<< 8 ||| c2) <<< 8) ||| c3

/-- READ(6) handling (acsi.c lines 381-399) on an idle machine: store the
command lba and the remaining block count, bounds-check, and either record
`INVADDR` sense or start the DMA read (first slice loaded into buffer 0). -/
def acsi_read_cmd (m : Machine) (c1 c2 c3 c4 : Nat) : Machine :=
  let d := { m.disk with lba := lba24 c1 c2 c3 }
  let m := { m with disk := d, dma_rem_bs := c4 * 32 }
  if d.sectors ≤ d.lba then
    set_error m ERROR_INVADDR true
  else if d.sectors < d.lba + c4 then
    set_error { m with disk := { d with lba := d.sectors } } ERROR_INVADDR true
  else
    read_next { m with dma_mode := 1, dma_buf_id := 0, loads := m.loads ++ [0] }

/-- WRITE(6) handling (acsi.c lines 401-416): note that the first guard
compares the disk's PREVIOUS `lba` field against `sectors`, not the block
address just decoded from the command. -/
def acsi_write_cmd (m : Machine) (c1 c2 c3 c4 : Nat) : Machine :=
  let sector := lba24 c1 c2 c3
  if m.disk.sectors ≤ m.disk.lba then
    set_error { m with disk := { m.disk with lba := sector } } ERROR_INVADDR true
  else if m.disk.sectors < sector + c4 then
    set_error { m with disk := { m.disk with lba := m.disk.sectors } } ERROR_INVADDR true
  else
    acsi_wait_data m (c4 * 512)

/-- Byte `i` of the REQUEST SENSE short (packed 4-byte) reply
(acsi.c lines 355-362). -/
def sense_byte_short (d : AcsiDisk) (i : Nat) : Nat :=
  if i = 0 then ((d.sense >>> 16) &&& 0xff) ||| (if d.report_lba then 0x80 else 0)
  else if d.report_lba ∧ i = 1 then (d.lba >>> 16) &&& 0xff
  else if d.report_lba ∧ i = 2 then (d.lba >>> 8) &&& 0xff
  else if d.report_lba ∧ i = 3 then d.lba &&& 0xff
  else 0

/-- Byte `i` of the REQUEST SENSE extended reply layout
(acsi.c lines 363-376); bytes not assigned by the code are the zeroes left
by `memset`. -/
def sense_byte_ext (d : AcsiDisk) (i : Nat) : Nat :=
  if i = 0 then 0x70 ||| (if d.report_lba then 0x80 else 0)
  else if i = 2 then d.sense &&& 0x0f
  else if d.report_lba ∧ i = 3 then (d.lba >>> 24) &&& 0xff
  else if d.report_lba ∧ i = 4 then (d.lba >>> 16) &&& 0xff
  else if d.report_lba ∧ i = 5 then (d.lba >>> 8) &&& 0xff
  else if d.report_lba ∧ i = 6 then d.lba &&& 0xff
  else if i = 7 then 10
  else if i = 12 then (d.sense >>> 16) &&& 0xff
  else if i = 13 then (d.sense >>> 8) &&& 0xff
  else 0

/-- REQUEST SENSE handling (acsi.c lines 347-379): the allocation length
(command byte 4) is clamped up to 4; a reply of exactly `max alloc 4` bytes
is sent (short packed form when that is 4, the extended layout truncated or
zero-padded to the allocation length otherwise), then the stored sense data
is cleared (`clear_sense_data`, acsi.c lines 55-58). -/
def acsi_request_sense (d : AcsiDisk) (alloc : Nat) : List Nat × AcsiDisk :=
  let len := max alloc 4
  let reply := if len ≤ 4 then (List.range 4).map (sense_byte_short d)
               else (List.range len).map (sense_byte_ext d)
  (reply, { d with sense := 0, report_lba := false })

/-- The alternating buffer-id sequence `0,1,0,1,…` of length `k`. -/
def alt_list (k : Nat) : List Nat := (List.range k).map (fun i => i % 2)

/-- Closed form of the DMA read engine state after an in-bounds READ(6) of
`n ≥ 1` sectors starting at `lba` (issued on the idle machine `m`) followed
by `k ≤ n-1` DMA-completion interrupts. -/
def read_state (m : Machine) (lba n k : Nat) : Machine :=
  { disk := { m.disk with lba := lba + k + 1 },
    dma_mode := 1,
    dma_buf_id := (min (k + 1) (n - 1)) % 2,
    dma_rem_bs := 32 * (n - 1 - k),
    acsireg := 0x100 ||| (31 <<< 3) ||| (k % 2),
    loads := m.loads ++ alt_list (min (k + 2) n) }

/-! ### MSA RLE codec (floppy_img.c lines 286-313 and 378-402) -/

/-- The loop of `msa_pack` (floppy_img.c lines 378-402): take the leading
run of identical bytes; emit it as the escape `0xE5, value, hi, lo` when it
is longer than 4 bytes or its value is 0xE5 and four more output bytes
still fit, else emit it literally when that fits, else fail (`return -1`).
`len` is the raw track length, `pklen` the output bytes produced so far. -/
def msa_pack_go (len : Nat) : Nat → List Nat → Nat → Option (List Nat)
  | _, [], _ => some []
  | 0, _ :: _, _ => none
  | fuel + 1, v :: rest, pklen =>
    let n := 1 + (rest.takeWhile (fun b => b == v)).length
    let rest2 := rest.dropWhile (fun b => b == v)
    if (4 < n ∨ v = 0xE5) ∧ pklen + 4 < len then
      (msa_pack_go len fuel rest2 (pklen + 4)).map
        (fun p => 0xE5 :: v :: ((n >>> 8) % 256) :: (n % 256) :: p)
    else if pklen + n < len then
      (msa_pack_go len fuel rest2 (pklen + n)).map (fun p => List.replicate n v ++ p)
    else none

/-- `msa_pack` (floppy_img.c lines 378-402): `some packed` on success,
`none` when packing was unsuccessful (C return value -1).  The fuel
argument of `msa_pack_go` only bounds the iteration count; since every
iteration consumes at least one source byte, `src.length` iterations always
suffice, so the 0-fuel case is never reached. -/
def msa_pack (src : List Nat) : Option (List Nat) :=
  msa_pack_go src.length src.length src 0

/-- The MSA track decompressor loop of `load_st_msa` (floppy_img.c lines
294-313): emit bytes until `target` bytes have been produced; `0xE5`
introduces a run `value, count_hi, count_lo`, any other byte is literal.
Running out of source bytes mid-stream is modelled as `none` (the C code
would read uninitialised memory there). -/
def msa_unpack_go (target : Nat) : Nat → List Nat → List Nat → Option (List Nat)
  | 0, _, acc => if target ≤ acc.length then some acc else none
  | _ + 1, [], acc => if target ≤ acc.length then some acc else none
  | fuel + 1, b :: rest, acc =>
    if target ≤ acc.length then some acc
    else if b = 0xE5 then
      if rest.length < 3 then none
      else
        msa_unpack_go target fuel (rest.drop 3)
          (acc ++ List.replicate (((rest.getD 1 0) <<< 8) ||| rest.getD 2 0) (rest.getD 0 0))
    else msa_unpack_go target fuel rest (acc ++ [b])

/-- MSA track decompression of a packed stream, producing `target` bytes.
As with `msa_pack_go`, the fuel only bounds iterations (each consumes at
least one source byte), so `src.length` always suffices. -/
def msa_unpack (target : Nat) (src : List Nat) : Option (List Nat) :=
  msa_unpack_go target src.length src []

/-! ### Floppy positional handler (floppy.c lines 81-134) -/

/-- A loaded floppy image as seen by the handler: its MFM buffer (byte
function), the write-back-pending flag `wrb` and its recorded geometry. -/
structure FImg where
  buf : Nat → Nat
  wrb : Bool
  geom : Geom

/-- One entry of the three-slot `pos_fifo` (floppy.c lines 85-89): the
staged slice's buffer offset (`none` models the NULL pointer stored when no
image is present), its byte count, and the drive it came from. -/
structure PosSlice where
  p : Option Nat
  count : Nat
  drive : Nat

/-- The handler state: the two drive slots `img[2]`, the three-slot
`pos_fifo`, and the 64-byte staging area at `&parmreg[8]` (byte function). -/
structure FlopState where
  imgs : Nat → Option FImg
  fifo0 : PosSlice
  fifo1 : PosSlice
  fifo2 : PosSlice
  staging : Nat → Nat

/-- Overwrite `count` bytes of `buf` starting at `off` with bytes taken
from `src` (a `memcpy`). -/
def write_mem (buf : Nat → Nat) (off : Nat) (src : Nat → Nat) (count : Nat) :
    Nat → Nat :=
  fun i => if off ≤ i ∧ i < off + count then src (i - off) else buf i

/-- The read part of `floppy_interrupt` (floppy.c lines 108-126): shift the
FIFO, compute the slice position `addr*16+16` (wrapping at 6250) and length
(16, or 10 for the final partial slice), and, when an image is present in
the drive, copy the slice into the staging area and record it in FIFO[0];
with no image, record a NULL slice and leave the staging area untouched.
`trk` is the 8-bit packed field whose low bit is the side. -/
def floppy_stage (st : FlopState) (addr trk drive : Nat) : FlopState :=
  let pos1 := addr * 16 + 16
  let pos := if 6250 ≤ pos1 then 0 else pos1
  match st.imgs drive with
  | some img =>
    let tp := flopimg_trackpos img.geom (trk >>> 1) (trk &&& 1)
    let cnt := if pos < 6240 then 16 else 10
    { imgs := fun d => if d = drive then some { img with geom := tp.1 } else st.imgs d,
      fifo0 := { p := some (tp.2 + pos), count := cnt, drive := drive },
      fifo1 := st.fifo0,
      fifo2 := st.fifo1,
      staging := fun i => if i < cnt then img.buf (tp.2 + pos + i) else st.staging i }
  | none =>
    { imgs := st.imgs,
      fifo0 := { p := none, count := 0, drive := drive },
      fifo1 := st.fifo0,
      fifo2 := st.fifo1,
      staging := st.staging }

/-- `flopimg_writeback` applied after the commit `memcpy`: the committed
image carries the overwritten buffer and `wrb = 1`. -/
def commit_img (img2 : FImg) (off : Nat) (src : Nat → Nat) (count : Nat) : FImg :=
  { buf := write_mem img2.buf off src count, wrb := true, geom := img2.geom }

/-- `floppy_interrupt` (floppy.c lines 108-133) for one event with decoded
fields, omitting the missed-address logging: events without the read bit do
nothing; read events stage a slice; if the write bit is also set, the
staging-area contents are committed through the post-shift FIFO[2] pointer
for FIFO[2]'s count, and `flopimg_writeback` is called on the CURRENT image
of FIFO[2]'s drive — a NULL dereference (`none`) when that drive holds no
image. -/
def floppy_event (st : FlopState) (r w : Bool) (addr trk drive : Nat) :
    Option FlopState :=
  if r = false then some st
  else
    let staged := floppy_stage st addr trk drive
    if w = false then some staged
    else
      match staged.imgs st.fifo1.drive with
      | none => none
      | some img2 =>
        some
          { staged with
            imgs := fun d =>
              if d = st.fifo1.drive then
                some (commit_img img2 (st.fifo1.p.getD 0) staged.staging
                  st.fifo1.count)
              else staged.imgs d }

/-- An empty-drive handler state (no image in either drive, empty FIFO). -/
def demo_flop_empty : FlopState :=
  { imgs := fun _ => none,
    fifo0 := { p := none, count := 0, drive := 0 },
    fifo1 := { p := none, count := 0, drive := 0 },
    fifo2 := { p := none, count := 0, drive := 0 },
    staging := fun _ => 0 }

/-- A demo image whose MFM buffer reads 3 everywhere. -/
def demo_img : FImg := { buf := fun _ => 3, wrb := false, geom := { ntracks := 1, nsides := 1 } }

/-- A handler state with `demo_img` in both drives and three staged
16-byte slices. -/
def demo_flop_loaded : FlopState :=
  { imgs := fun _ => some demo_img,
    fifo0 := { p := some 0, count := 16, drive := 0 },
    fifo1 := { p := some 16, count := 16, drive := 0 },
    fifo2 := { p := some 32, count := 16, drive := 0 },
    staging := fun _ => 9 }

/-- An idle machine in front of a fresh disk of the given capacity. -/
def idle_machine (sectors : Nat) : Machine :=
  { disk := { sectors := sectors, lba := 0, sense := 0, report_lba := false },
    dma_mode := 0, dma_buf_id := 0, dma_rem_bs := 0, acsireg := 0, loads := [] }

/-- A concrete disk state used to exercise REQUEST SENSE: INVADDR sense
stored, lba reporting on. -/
def sense_demo_disk : AcsiDisk :=
  { sectors := 100, lba := 7, sense := ERROR_INVADDR, report_lba := true }

/-! ### CRC-16 (floppy_img.c lines 73-91) -/

/-- One generator step of `crc16_init` (floppy_img.c line 80):
`w = (w<<1) ^ (0x1021 & -((w>>15)&1))`.  `w` is a C `unsigned int`; starting
from `i<<8 < 2^16` the eight steps stay below `2^24`, so plain `Nat`
arithmetic is faithful. -/
def crc_step (w : Nat) : Nat :=
  (w <<< 1) ^^^ (if (w >>> 15) &&& 1 = 1 then 0x1021 else 0)

/-- `crc16_table[i]` (floppy_img.c lines 75-83): eight generator steps on
`i<<8`, truncated to `uint16_t` on store. -/
def crc16_table (i : Nat) : Nat := (crc_step^[8] (i <<< 8)) % 65536

/-- The per-byte update of `crc16` (floppy_img.c line 89):
`crc = crc16_table[crc>>8 ^ b] ^ (crc&0xff)<<8`. -/
def crc16_update (crc b : Nat) : Nat :=
  crc16_table ((crc >>> 8) ^^^ b) ^^^ ((crc &&& 0xff) <<< 8)

/-- `crc16` (floppy_img.c lines 85-91): table-driven CRC over a byte
buffer, initial value 0xCDB4. -/
def crc16 (l : List Nat) : Nat := l.foldl crc16_update 0xcdb4

/-- Modelled from the spec: one shift of the reference bitwise
CRC-16/CCITT register with polynomial 0x1021, kept to 16 bits. -/
def ccitt_step (w : Nat) : Nat :=
  ((w <<< 1) ^^^ (if w.testBit 15 then 0x1021 else 0)) % 65536

/-- Modelled from the spec: the reference bitwise CRC-16/CCITT byte
update - xor the byte into the high half, shift the register 8 times. -/
def ccitt_update (crc b : Nat) : Nat := ccitt_step^[8] (crc ^^^ (b <<< 8))

/-- Modelled from the spec: bitwise CRC-16/CCITT of a byte list with
initial value 0xCDB4. -/
def ccitt_crc (l : List Nat) : Nat := l.foldl ccitt_update 0xcdb4

/-! ### MFM track synthesis (floppy_img.c lines 235-344) -/

/-- `readw` (floppy_img.c lines 93-98): little-endian 16-bit read. -/
def readw (l : List Nat) : Nat := ((l.getD 1 0) <<< 8) ||| (l.getD 0 0)

/-- `readwb` (floppy_img.c lines 100-105): big-endian 16-bit read. -/
def readwb (l : List Nat) : Nat := ((l.getD 0 0) <<< 8) ||| (l.getD 1 0)

/-- The MSA header checks of `load_st_msa` (floppy_img.c lines 216-232):
magic 0x0E0F and start track 0 are the only fatal ones; on success the
geometry `(nsectors, nsides, ntracks)` is taken from the header with no
validation of the sector count. -/
def msa_geometry (f : List Nat) : Option (Nat × Nat × Nat) :=
  if readwb f ≠ 0x0e0f then none
  else if readwb (f.drop 6) ≠ 0 then none
  else some (readwb (f.drop 2), readwb (f.drop 4) + 1, readwb (f.drop 8) + 1)

/-- Gap sizes `(gap1, gap2, gap4, gap5)` chosen from the sector count
(floppy_img.c lines 236-250). -/
def track_gaps (n : Nat) : Nat × Nat × Nat × Nat :=
  if n = 11 then (10, 3, 1, 14)
  else (60, 12, 40, if n = 10 then 50 else 664)

/-- The ID field stored after the three 0xA1 marks (floppy_img.c lines
320-324); the `uint8_t` stores truncate. -/
def id_field (t s k : Nat) : List Nat := [0xFE, t % 256, s % 256, (k + 1) % 256, 2]

/-- The two bytes stored for a CRC: `*p++ = crc>>8; *p++ = crc;`
(floppy_img.c lines 326-327). -/
def crc_bytes (c : Nat) : List Nat := [(c >>> 8) % 256, c % 256]

/-- The 512-byte payload of logical sector `k` in the decoded track
buffer (floppy_img.c line 333, `buf+512*sec_no`). -/
def sec_payload (buf : List Nat) (k : Nat) : List Nat := (buf.drop (512 * k)).take 512

/-- One emitted sector: the body of the `for (sector=...)` loop of
`load_st_msa` (floppy_img.c lines 317-339). -/
def sec_block (g2 g4 t s k : Nat) (pl : List Nat) : List Nat :=
  List.replicate g2 0 ++ List.replicate 3 0xA1 ++ id_field t s k ++
  crc_bytes (crc16 (id_field t s k)) ++
  List.replicate 22 0x4E ++ List.replicate 12 0 ++ List.replicate 3 0xA1 ++
  (0xFB :: pl) ++ crc_bytes (crc16 (0xFB :: pl)) ++ List.replicate g4 0x4E

/-- One synthesised MFM track (floppy_img.c lines 315-341): gap1, then
the sectors in `order`, then gap5. -/
def encode_track (n t s : Nat) (order : List Nat) (buf : List Nat) : List Nat :=
  List.replicate (track_gaps n).1 0x4E ++
  (order.map (fun k => sec_block (track_gaps n).2.1 (track_gaps n).2.2.1 t s k
    (sec_payload buf k))).flatten ++
  List.replicate (track_gaps n).2.2.2 0x4E

/-- Whether the 6-byte address-mark lead-in [0,0,0,0xA1,0xA1,0xA1] of
`findam` (floppy_img.c lines 31-41) starts at offset `j`; all reads the C
code performs are in bounds on a 6250-byte track. -/
def am_at (l : List Nat) (j : Nat) : Bool :=
  (l.getD j 0 == 0) && (l.getD (j + 1) 0 == 0) && (l.getD (j + 2) 0 == 0) &&
  (l.getD (j + 3) 0 == 0xA1) && (l.getD (j + 4) 0 == 0xA1) && (l.getD (j + 5) 0 == 0xA1)

/-- The scan loop of `findam`: try successive offsets while fuel lasts. -/
def findam_go (l : List Nat) : Nat → Nat → Option Nat
  | 0, _ => none
  | fuel + 1, i => if am_at l i then some i else findam_go l fuel (i + 1)

/-- `findam` (floppy_img.c lines 31-41) on a 6250-byte track: the C scan
runs while `p < p_start + 6250 - 6`, i.e. for offsets `i` up to 6243. -/
def findam (l : List Nat) (i : Nat) : Option Nat := findam_go l (6244 - i) i

/-- The loop body of `find_sector` (floppy_img.c lines 43-71): find an ID
address mark, check 0xFE/track/side, remember whether the sector number
matches, find the data address mark, check 0xFB, and either return the
payload start (`p + 7`) or skip 521 bytes and continue. -/
def find_sector_go (l : List Nat) (track side sector : Nat) : Nat → Nat → Option Nat
  | 0, _ => none
  | fuel + 1, i =>
    (findam l i).bind (fun j =>
      if ¬ (l.getD (j + 6) 0 = 0xFE ∧ l.getD (j + 7) 0 = track ∧ l.getD (j + 8) 0 = side)
      then none
      else
        (findam l (j + 11)).bind (fun d =>
          if ¬ (l.getD (d + 6) 0 = 0xFB) then none
          else if l.getD (j + 9) 0 = sector then some (d + 7)
          else find_sector_go l track side sector fuel (d + 521)))

/-- `find_sector` (floppy_img.c lines 43-71).  Each loop iteration
advances the scan position by at least 532 bytes and `findam` gives up at
offset 6244, so 12 iterations reproduce the C loop exactly on every
input. -/
def find_sector (l : List Nat) (track side sector : Nat) : Option Nat :=
  find_sector_go l track side sector 12 0

/-- The suffix of a synthesised track as seen from a scan resumption
point: `c` trailing gap bytes, then one emitted sector, then the rest. -/
def sec_view (c g2 g4 t s k : Nat) (pl R : List Nat) : List Nat :=
  List.replicate c 0x4E ++ (sec_block g2 g4 t s k pl ++ R)


/-- The inner `while` of the sector-order computation (floppy_img.c lines
272-274): advance to the next free slot.  At most `n` steps are ever
needed because a free slot exists whenever the loop is entered. -/
def build_order_inner (n written : Nat) : Nat → Nat → Nat
  | 0, sec_no => sec_no
  | fuel + 1, sec_no =>
    if written &&& (1 <<< sec_no) ≠ 0 then
      build_order_inner n written fuel (if sec_no + 1 < n then sec_no + 1 else 0)
    else sec_no

/-- One pass of the order-filling loop of `load_st_msa` (floppy_img.c
lines 261-276): store `i` in slot `sec_no`, mark it written, step by the
interleave (with a single wrap, as in the C code) and skip occupied
slots. -/
def build_order_go (n interleave : Nat) :
    Nat → (Nat → Nat) → Nat → Nat → Nat → (Nat → Nat)
  | 0, arr, _, _, _ => arr
  | fuel + 1, arr, written, sec_no, i =>
    let arr2 := fun m => if m = sec_no then i else arr m
    let written2 := written ||| (1 <<< sec_no)
    let sn1 := sec_no + interleave
    let sn2 := if n ≤ sn1 then sn1 - n else sn1
    let sn3 := if i + 1 < n then build_order_inner n written2 n sn2 else sn2
    build_order_go n interleave fuel arr2 written2 sn3 (i + 1)

/-- The sector order of one track (floppy_img.c lines 256-276), as the
list `order[0], ..., order[n-1]`.  `sec_shift` is the starting slot. -/
def build_order (n interleave sec_shift : Nat) : List Nat :=
  (List.range n).map (build_order_go n interleave n (fun _ => 0) 0 sec_shift 0)

/-- The geometry that `save_st`/`save_msa` re-read from the boot sector
of the synthesised buffer before writing the file back (floppy_img.c
lines 353-357 and 408-412): sectors from offset 0x18, sides from 0x1A,
tracks from the total at 0x13. (The C code uses the `find_sector` result
without a NULL check; the `none` branch marks that crash case.) -/
def bpb_geometry (track0 : List Nat) : Option (Nat × Nat × Nat) :=
  match find_sector track0 0 0 1 with
  | none => none
  | some i =>
      some (readw (track0.drop (i + 0x18)), readw (track0.drop (i + 0x1a)),
        readw (track0.drop (i + 0x13)) /
          (readw (track0.drop (i + 0x18)) * readw (track0.drop (i + 0x1a))))


/-- A 9-sector track buffer whose boot-sector BPB declares 8 sectors per
track, 1 side, and 8 total sectors. -/
def boot8 : List Nat :=
  List.replicate 0x13 0 ++ [8, 0] ++ List.replicate 3 0 ++ [8, 0, 1, 0] ++
    List.replicate (4608 - 0x1c) 0

/-- An MSA header declaring 9 sectors per track, 1 side, 1 track. -/
def msa_hdr9 : List Nat := [0x0e, 0x0f, 0, 9, 0, 0, 0, 0, 0, 0]



/-- ASCII tolower, as used through `strcasecmp`/`tolower` in gemdos.c. -/
def low (c : Nat) : Nat := if 65 ≤ c ∧ c ≤ 90 then c + 32 else c

/-- `namecmp` (gemdos.c lines 356-358) as an equality: two names match
when they agree case-insensitively. -/
def ci_eq (a b : List Nat) : Bool := a.map low == b.map low

/-- A host filesystem subtree: a file, or a directory with named
children in directory order. -/
inductive FsNode where
  | file : FsNode
  | dir : List (List Nat × FsNode) → FsNode

/-- `filename_lookup` (gemdos.c lines 362-385): first try the exact name
(the `stat` of `dir/fname`), then scan the directory in order for the
first case-insensitive match. -/
def filename_lookup (entries : List (List Nat × FsNode)) (fname : List Nat) :
    Option (List Nat × FsNode) :=
  match entries.find? (fun e => e.1 == fname) with
  | some e => some e
  | none => entries.find? (fun e => ci_eq e.1 fname)

def node_is_file : FsNode → Bool
  | .file => true
  | .dir _ => false

def node_is_dir : FsNode → Bool
  | .file => false
  | .dir _ => true

/-- The component loop plus final `stat` of `path_lookup` (gemdos.c
lines 414-452): resolve each directory component case-insensitively
(a missing or non-directory parent gives -1), then classify the leaf:
existing file 1, existing directory 0, missing leaf 2. -/
def path_walk (cur : List (List Nat × FsNode)) : List (List Nat) → Int
  | [] => 0
  | [leaf] =>
    match filename_lookup cur leaf with
    | some (_, .file) => 1
    | some (_, .dir _) => 0
    | none => 2
  | c :: rest =>
    match filename_lookup cur c with
    | some (_, .dir entries) => path_walk entries rest
    | some (_, .file) => -1
    | none => -1

/-- `path_lookup` (gemdos.c lines 397-453) for an absolute path: the
drive-prefix gate of lines 399-409 - a present drive letter is compared
against `gemdos_drv` only, and with no letter the call is rejected
whenever `current_drv` differs from `gemdos_drv` - followed by the
component walk from the share root. -/
def path_lookup (gemdos_drv current_drv : Nat) (drive : Option Nat)
    (root : List (List Nat × FsNode)) (comps : List (List Nat)) : Int :=
  match drive with
  | some d => if d = gemdos_drv then path_walk root comps else -2
  | none => if ¬ (current_drv = gemdos_drv) then -2 else path_walk root comps

/-- Modelled from the spec: a case-insensitive chain for the given
components exists in the tree and the final node satisfies `p`
(with `p` on the starting directory itself for an empty path). -/
def ex_path : List (List Nat × FsNode) → List (List Nat) → (FsNode → Bool) → Bool
  | cur, [], p => p (.dir cur)
  | cur, [leaf], p => cur.any (fun e => ci_eq e.1 leaf && p e.2)
  | cur, c :: rest, p => cur.any (fun e => ci_eq e.1 c &&
      (match e.2 with
       | .dir e2 => ex_path e2 rest p
       | .file => false))

/-- Well-formedness of a host tree: no directory holds two entries whose
names coincide case-insensitively (otherwise `stat` and the `readdir`
scan may disagree on which entry a DOS name denotes). -/
inductive Wf : FsNode → Prop where
  | file : Wf .file
  | dir : ∀ es, List.Pairwise (fun a b => ci_eq a.1 b.1 = false) es →
      (∀ e ∈ es, Wf e.2) → Wf (.dir es)


/-! ### Theorems -/

/-- Closed form of `flopimg_trackpos`. -/
theorem flopimg_trackpos_eq (g : Geom) (t s : Nat) :
    flopimg_trackpos g t s =
      ({ ntracks := max g.ntracks (t + 1), nsides := max g.nsides (s + 1) },
       (t * max g.nsides (s + 1) + s) * 6250) := by
  simp only [flopimg_trackpos]
  by_cases h1 : g.ntracks ≤ t <;> by_cases h2 : g.nsides ≤ s <;>
    simp only [h1, h2, if_true, if_false, ite_true, ite_false] <;>
    rw [Prod.mk.injEq, Geom.mk.injEq] <;>
    refine ⟨⟨by omega, by omega⟩, ?_⟩
  · rw [Nat.max_eq_right (by omega : g.nsides ≤ s + 1)]
  · rw [Nat.max_eq_left (by omega : s + 1 ≤ g.nsides)]
  · rw [Nat.max_eq_right (by omega : g.nsides ≤ s + 1)]
  · rw [Nat.max_eq_left (by omega : s + 1 ≤ g.nsides)]

/-- Geometry only grows along a sequence of `flopimg_trackpos` calls. -/
theorem trackpos_run_mono (l : List (Nat × Nat)) : ∀ g : Geom,
    g.ntracks ≤ (trackpos_run g l).ntracks ∧ g.nsides ≤ (trackpos_run g l).nsides := by
  induction l with
  | nil => intro g; exact ⟨Nat.le_refl _, Nat.le_refl _⟩
  | cons c cs ih =>
    intro g
    have h1 : g.ntracks ≤ (flopimg_trackpos g c.1 c.2).1.ntracks := by
      rw [flopimg_trackpos_eq]; exact Nat.le_max_left _ _
    have h2 : g.nsides ≤ (flopimg_trackpos g c.1 c.2).1.nsides := by
      rw [flopimg_trackpos_eq]; exact Nat.le_max_left _ _
    have := ih (flopimg_trackpos g c.1 c.2).1
    exact ⟨Nat.le_trans h1 (by simpa [trackpos_run] using this.1),
           Nat.le_trans h2 (by simpa [trackpos_run] using this.2)⟩

/-- C10 (confirmed). `flopimg_trackpos` is total: it always returns the
position `(track*nsides+side)*6250` (with the just-updated `nsides`), its
only side effect is enlarging the recorded geometry to cover the addressed
track and side, and consequently the extent `6250*nsides*ntracks` later
written back by `save_mfm` (floppy_img.c lines 140-143) covers every track
position ever returned, whatever further calls occur in between. -/
theorem flopimg_trackpos_spec (g : Geom) (track side : Nat) :
    (flopimg_trackpos g track side).2 =
      (track * (flopimg_trackpos g track side).1.nsides + side) * 6250 ∧
    (flopimg_trackpos g track side).1.ntracks = max g.ntracks (track + 1) ∧
    (flopimg_trackpos g track side).1.nsides = max g.nsides (side + 1) ∧
    ∀ calls : List (Nat × Nat),
      (flopimg_trackpos g track side).2 + 6250 ≤
        6250 * ((trackpos_run (flopimg_trackpos g track side).1 calls).nsides *
                (trackpos_run (flopimg_trackpos g track side).1 calls).ntracks) := by
  refine ⟨?_, ?_, ?_, ?_⟩
  · rw [flopimg_trackpos_eq]
  · rw [flopimg_trackpos_eq]
  · rw [flopimg_trackpos_eq]
  · intro calls
    have hmono := trackpos_run_mono calls (flopimg_trackpos g track side).1
    have hT : track + 1 ≤ (flopimg_trackpos g track side).1.ntracks := by
      rw [flopimg_trackpos_eq]; exact Nat.le_max_right _ _
    have hS : side + 1 ≤ (flopimg_trackpos g track side).1.nsides := by
      rw [flopimg_trackpos_eq]; exact Nat.le_max_right _ _
    have hpos : (flopimg_trackpos g track side).2 =
        (track * (flopimg_trackpos g track side).1.nsides + side) * 6250 := by
      rw [flopimg_trackpos_eq]
    set g2 := (flopimg_trackpos g track side).1 with hg2
    set gf := trackpos_run g2 calls with hgf
    have h1 : track * g2.nsides + side + 1 ≤ gf.nsides * gf.ntracks := by
      have ha : track * g2.nsides + side + 1 ≤ (track + 1) * g2.nsides := by
        nlinarith [hS]
      have hb : (track + 1) * g2.nsides ≤ gf.ntracks * gf.nsides := by
        have hm1 := hmono.1
        have hm2 := hmono.2
        nlinarith
      nlinarith
    rw [hpos]
    nlinarith

/-- C1 (counterexample). On a 4-sector disk, a READ(6) with lba = 5 does
post STATUS_ERROR with sense INVADDR and `report_lba`, but it leaves the
disk's `current_lba` at 5, the out-of-range address taken from the command,
not at `sector_count` = 4 as the claim states. -/
theorem acsi_rw_bounds_claim_counterexample :
    (acsi_read_cmd { disk := { sectors := 4, lba := 0, sense := 0, report_lba := false },
                     dma_mode := 0, dma_buf_id := 0, dma_rem_bs := 0,
                     acsireg := 0, loads := [] } 0 0 5 1).disk.sense = ERROR_INVADDR ∧
    (acsi_read_cmd { disk := { sectors := 4, lba := 0, sense := 0, report_lba := false },
                     dma_mode := 0, dma_buf_id := 0, dma_rem_bs := 0,
                     acsireg := 0, loads := [] } 0 0 5 1).acsireg = STATUS_ERROR ∧
    (acsi_read_cmd { disk := { sectors := 4, lba := 0, sense := 0, report_lba := false },
                     dma_mode := 0, dma_buf_id := 0, dma_rem_bs := 0,
                     acsireg := 0, loads := [] } 0 0 5 1).disk.lba = 5 ∧
    (5 : Nat) ≠ 4 := by
  decide

/-- C1 (amended). Bounds behaviour of READ(6)/WRITE(6): both out-of-range
cases record sense INVADDR with `report_lba = true`, post STATUS_ERROR and
start no DMA transfer, but `current_lba` becomes `sector_count` only in the
`lba + count > sector_count` (with in-range first block) case; a READ whose
`lba` is itself out of range keeps that `lba`, and WRITE's first guard
compares the PREVIOUS `current_lba` — an out-of-range WRITE address is only
caught (via the second guard) together with the count. -/
theorem acsi_rw_bounds_spec (m : Machine) (c1 c2 c3 c4 : Nat) :
    (m.disk.sectors ≤ lba24 c1 c2 c3 →
      acsi_read_cmd m c1 c2 c3 c4 =
        set_error { m with disk := { m.disk with lba := lba24 c1 c2 c3 },
                           dma_rem_bs := c4 * 32 } ERROR_INVADDR true) ∧
    (lba24 c1 c2 c3 < m.disk.sectors → m.disk.sectors < lba24 c1 c2 c3 + c4 →
      acsi_read_cmd m c1 c2 c3 c4 =
        set_error { m with disk := { m.disk with lba := m.disk.sectors },
                           dma_rem_bs := c4 * 32 } ERROR_INVADDR true) ∧
    (m.disk.sectors ≤ m.disk.lba →
      acsi_write_cmd m c1 c2 c3 c4 =
        set_error { m with disk := { m.disk with lba := lba24 c1 c2 c3 } }
          ERROR_INVADDR true) ∧
    (m.disk.lba < m.disk.sectors → m.disk.sectors < lba24 c1 c2 c3 + c4 →
      acsi_write_cmd m c1 c2 c3 c4 =
        set_error { m with disk := { m.disk with lba := m.disk.sectors } }
          ERROR_INVADDR true) := by
  refine ⟨?_, ?_, ?_, ?_⟩
  · intro h
    simp only [acsi_read_cmd]
    rw [if_pos h]
  · intro h1 h2
    simp only [acsi_read_cmd]
    rw [if_neg (by omega), if_pos (by omega)]
  · intro h
    simp only [acsi_write_cmd]
    rw [if_pos h]
  · intro h1 h2
    simp only [acsi_write_cmd]
    rw [if_neg (by omega), if_pos (by omega)]

/-- Witness for `acsi_rw_bounds_spec` at concrete inputs: a READ(6) with
lba 5 on a 4-sector disk, and a WRITE(6) issued while the previous
`current_lba` (9) is already past the end. -/
theorem acsi_rw_bounds_spec_witness :
    (acsi_read_cmd { disk := { sectors := 4, lba := 0, sense := 0, report_lba := false },
                     dma_mode := 0, dma_buf_id := 0, dma_rem_bs := 0,
                     acsireg := 0, loads := [] } 0 0 5 1 =
      set_error { disk := { sectors := 4, lba := 5, sense := 0, report_lba := false },
                  dma_mode := 0, dma_buf_id := 0, dma_rem_bs := 32,
                  acsireg := 0, loads := [] } ERROR_INVADDR true) ∧
    (acsi_write_cmd { disk := { sectors := 4, lba := 9, sense := 0, report_lba := false },
                      dma_mode := 0, dma_buf_id := 0, dma_rem_bs := 0,
                      acsireg := 0, loads := [] } 0 0 1 1 =
      set_error { disk := { sectors := 4, lba := 1, sense := 0, report_lba := false },
                  dma_mode := 0, dma_buf_id := 0, dma_rem_bs := 0,
                  acsireg := 0, loads := [] } ERROR_INVADDR true) := by
  constructor
  · exact ((acsi_rw_bounds_spec
      { disk := { sectors := 4, lba := 0, sense := 0, report_lba := false },
        dma_mode := 0, dma_buf_id := 0, dma_rem_bs := 0,
        acsireg := 0, loads := [] } 0 0 5 1).1 (by decide))
  · exact ((acsi_rw_bounds_spec
      { disk := { sectors := 4, lba := 9, sense := 0, report_lba := false },
        dma_mode := 0, dma_buf_id := 0, dma_rem_bs := 0,
        acsireg := 0, loads := [] } 0 0 1 1).2.2.1 (by decide))

theorem getD_map_range (f : Nat → Nat) (n i : Nat) (h : i < n) :
    ((List.range n).map f).getD i 0 = f i := by
  simp [List.getD, List.getElem?_map, List.getElem?_range h]

/-- C9 (counterexample). A REQUEST SENSE with allocation length 5 receives a
5-byte reply, not the 18-byte extended form the claim states: the code sends
exactly `max alloc 4` bytes. -/
theorem acsi_request_sense_claim_counterexample :
    (acsi_request_sense sense_demo_disk 5).1.length = 5 ∧ (5 : Nat) ≠ 18 := by
  decide

/-- C9 (amended). REQUEST SENSE replies with exactly `max alloc 4` bytes:
the packed 4-byte short form when `alloc ≤ 4`, otherwise the extended-form
layout truncated or zero-padded to `alloc` bytes, which carries the sense
key at byte 2, the additional sense length 10 at byte 7, the ASC/ASCQ at
bytes 12/13 and (when `report_lba` is set) the 32-bit `current_lba` at
bytes 3..6, each insofar as `alloc` covers its position; the stored sense
and `report_lba` flag are cleared afterwards in both cases. -/
theorem acsi_request_sense_spec (d : AcsiDisk) (alloc : Nat) :
    (acsi_request_sense d alloc).1.length = max alloc 4 ∧
    (alloc ≤ 4 →
      (acsi_request_sense d alloc).1 =
        [sense_byte_short d 0, sense_byte_short d 1,
         sense_byte_short d 2, sense_byte_short d 3]) ∧
    (4 < alloc →
      ((acsi_request_sense d alloc).1.getD 0 0 =
          (0x70 ||| (if d.report_lba then 0x80 else 0)) ∧
        (2 < alloc → (acsi_request_sense d alloc).1.getD 2 0 = d.sense &&& 0x0f) ∧
        (7 < alloc → (acsi_request_sense d alloc).1.getD 7 0 = 10) ∧
        (12 < alloc → (acsi_request_sense d alloc).1.getD 12 0 = (d.sense >>> 16) &&& 0xff) ∧
        (13 < alloc → (acsi_request_sense d alloc).1.getD 13 0 = (d.sense >>> 8) &&& 0xff) ∧
        (d.report_lba → 6 < alloc →
          (acsi_request_sense d alloc).1.getD 3 0 = (d.lba >>> 24) &&& 0xff ∧
          (acsi_request_sense d alloc).1.getD 4 0 = (d.lba >>> 16) &&& 0xff ∧
          (acsi_request_sense d alloc).1.getD 5 0 = (d.lba >>> 8) &&& 0xff ∧
          (acsi_request_sense d alloc).1.getD 6 0 = d.lba &&& 0xff))) ∧
    (acsi_request_sense d alloc).2.sense = 0 ∧
    (acsi_request_sense d alloc).2.report_lba = false := by
  refine ⟨?_, ?_, ?_, rfl, rfl⟩
  · simp only [acsi_request_sense]
    by_cases h : max alloc 4 ≤ 4
    · rw [if_pos h]
      simp
      omega
    · rw [if_neg h]
      simp
  · intro h
    have hm : max alloc 4 = 4 := by omega
    simp only [acsi_request_sense, hm]
    rfl
  · intro h
    have hm : ¬ (max alloc 4 ≤ 4) := by omega
    have hlen : max alloc 4 = alloc := by omega
    simp only [acsi_request_sense, hm, if_false, ite_false, hlen]
    rw [if_neg (show ¬ alloc ≤ 4 by omega)]
    refine ⟨?_, ?_, ?_, ?_, ?_, ?_⟩
    · rw [getD_map_range _ _ _ (by omega)]
      simp [sense_byte_ext]
    · intro h2; rw [getD_map_range _ _ _ (by omega)]
      simp [sense_byte_ext]
    · intro h2; rw [getD_map_range _ _ _ (by omega)]
      simp [sense_byte_ext]
    · intro h2; rw [getD_map_range _ _ _ (by omega)]
      simp [sense_byte_ext]
    · intro h2; rw [getD_map_range _ _ _ (by omega)]
      simp [sense_byte_ext]
    · intro hr h2
      refine ⟨?_, ?_, ?_, ?_⟩ <;> rw [getD_map_range _ _ _ (by omega)] <;>
        simp [sense_byte_ext, hr]

/-- Witness for `acsi_request_sense_spec`: allocation length 18 with a
stored INVADDR sense and lba reporting enabled yields an 18-byte reply with
additional sense length 10 at byte 7 and ASC 0x21 at byte 12, and clears
the sense. -/
theorem acsi_request_sense_spec_witness :
    (acsi_request_sense sense_demo_disk 18).1.length = max 18 4 ∧
    (acsi_request_sense sense_demo_disk 18).1.getD 7 0 = 10 ∧
    (acsi_request_sense sense_demo_disk 18).1.getD 12 0 =
      (sense_demo_disk.sense >>> 16) &&& 0xff ∧
    (acsi_request_sense sense_demo_disk 18).2.sense = 0 :=
  ⟨(acsi_request_sense_spec sense_demo_disk 18).1,
   (((acsi_request_sense_spec sense_demo_disk 18).2.2.1) (by decide)).2.2.1 (by decide),
   (((acsi_request_sense_spec sense_demo_disk 18).2.2.1) (by decide)).2.2.2.1 (by decide),
   (acsi_request_sense_spec sense_demo_disk 18).2.2.2.1⟩

theorem mod_two_xor_one (x : Nat) : x % 2 ^^^ 1 = (x + 1) % 2 := by
  rcases Nat.mod_two_eq_zero_or_one x with h | h
  · rw [h, show (x + 1) % 2 = 1 by omega]
    decide
  · rw [h, show (x + 1) % 2 = 0 by omega]
    decide

theorem alt_list_succ (k : Nat) : alt_list (k + 1) = alt_list k ++ [k % 2] := by
  simp [alt_list, List.range_succ]

/-- An in-bounds READ(6) command leaves the engine in `read_state … 0`:
first burst posted from buffer 0, first slice loaded, second slice already
staged in buffer 1 when more than one sector was requested. -/
theorem read_cmd_inbounds (m : Machine) (c1 c2 c3 n : Nat) (h1 : 1 ≤ n)
    (h2 : lba24 c1 c2 c3 + n ≤ m.disk.sectors) :
    acsi_read_cmd m c1 c2 c3 n = read_state m (lba24 c1 c2 c3) n 0 := by
  simp only [acsi_read_cmd]
  rw [if_neg (by omega), if_neg (by omega)]
  simp only [read_next, read_state]
  rw [if_neg (by omega)]
  rw [show min (n * 32) 32 = 32 by omega]
  by_cases hone : n = 1
  · subst hone
    rw [if_neg (by omega)]
    simp [alt_list, List.range_succ]
  · rw [if_pos (by omega)]
    rw [show min 1 (n - 1) = 1 by omega, show min 2 n = 2 by omega]
    simp [Machine.mk.injEq, AcsiDisk.mk.injEq, alt_list, List.range_succ,
          List.append_assoc]
    omega

/-- One DMA-completion interrupt while bursts remain advances the closed
form by one step. -/
theorem read_next_step (m : Machine) (lba n k : Nat) (h : k + 2 ≤ n) :
    read_next (read_state m lba n k) = read_state m lba n (k + 1) := by
  simp only [read_next, read_state]
  rw [if_neg (by omega)]
  rw [show min (32 * (n - 1 - k)) 32 = 32 by omega]
  by_cases hlast : k + 2 = n
  · rw [if_neg (by omega)]
    rw [show min (k + 1) (n - 1) = k + 1 by omega,
        show min (k + 2) (n - 1) = k + 1 by omega,
        show min (k + 2) n = k + 2 by omega,
        show min (k + 3) n = k + 2 by omega]
    simp [Machine.mk.injEq, AcsiDisk.mk.injEq]
    omega
  · rw [if_pos (by omega)]
    rw [show min (k + 1) (n - 1) = k + 1 by omega,
        show min (k + 2) (n - 1) = k + 2 by omega,
        show min (k + 2) n = k + 2 by omega,
        show min (k + 3) n = k + 3 by omega,
        mod_two_xor_one (k + 1), alt_list_succ (k + 2)]
    simp [Machine.mk.injEq, AcsiDisk.mk.injEq, List.append_assoc]
    omega

/-- The DMA-completion interrupt that arrives once no blocks remain posts
STATUS_OK and idles the machine. -/
theorem read_next_last (m : Machine) (lba j : Nat) :
    read_next (read_state m lba (j + 1) j) =
      { read_state m lba (j + 1) j with acsireg := STATUS_OK, dma_mode := 0 } := by
  simp only [read_next, read_state]
  rw [if_pos (by omega)]

/-- C6 (amended). For an in-bounds READ(6) of `n ≥ 1` sectors: the command
processing itself starts the first burst; for every `k ≤ n-1` the state
after `k` DMA-completion interrupts is the closed form `read_state … k`
(still in Read mode, burst `k+1` posted from buffer `k % 2`); exactly `n`
512-byte slices are loaded, through the two buffers in alternating order
`0,1,0,1,…`; and it is the `n`-th DMA-completion interrupt (not the
`(n+1)`-th) that posts STATUS_OK and returns the engine to Idle. -/
theorem acsi_dma_pingpong_spec (m : Machine) (c1 c2 c3 n : Nat) (h1 : 1 ≤ n)
    (h2 : lba24 c1 c2 c3 + n ≤ m.disk.sectors) :
    (∀ k, k ≤ n - 1 →
      read_next^[k] (acsi_read_cmd m c1 c2 c3 n) = read_state m (lba24 c1 c2 c3) n k) ∧
    (read_state m (lba24 c1 c2 c3) n (n - 1)).loads = m.loads ++ alt_list n ∧
    read_next^[n] (acsi_read_cmd m c1 c2 c3 n) =
      { read_state m (lba24 c1 c2 c3) n (n - 1) with
          acsireg := STATUS_OK, dma_mode := 0 } := by
  obtain ⟨j, rfl⟩ : ∃ j, n = j + 1 := ⟨n - 1, by omega⟩
  have hall : ∀ k, k ≤ j →
      read_next^[k] (acsi_read_cmd m c1 c2 c3 (j + 1)) =
        read_state m (lba24 c1 c2 c3) (j + 1) k := by
    intro k
    induction k with
    | zero =>
      intro _
      simpa using read_cmd_inbounds m c1 c2 c3 (j + 1) (by omega) h2
    | succ i ih =>
      intro hk
      rw [Function.iterate_succ_apply', ih (by omega),
          read_next_step m (lba24 c1 c2 c3) (j + 1) i (by omega)]
  refine ⟨fun k hk => hall k (by omega), ?_, ?_⟩
  · simp only [Nat.add_sub_cancel, read_state]
    rw [show min (j + 2) (j + 1) = j + 1 by omega]
  · simp only [Nat.add_sub_cancel]
    rw [Function.iterate_succ_apply', hall j (by omega)]
    exact read_next_last m (lba24 c1 c2 c3) j

/-- C6 (counterexample). For an in-bounds 1-sector READ, the FIRST
DMA-completion interrupt already posts STATUS_OK and idles the machine: the
command is ended by the n-th completion, not the (n+1)-th as the claim
counts (there is no (n+1)-th completion — only `n` bursts are ever
started). -/
theorem acsi_dma_pingpong_claim_counterexample :
    (read_next^[1] (acsi_read_cmd (idle_machine 4) 0 0 0 1)).dma_mode = 0 ∧
    (read_next^[1] (acsi_read_cmd (idle_machine 4) 0 0 0 1)).acsireg = STATUS_OK ∧
    (read_next^[1] (acsi_read_cmd (idle_machine 4) 0 0 0 1)).loads = [0] := by
  decide

/-- Witness for `acsi_dma_pingpong_spec`: 3-sector read on a 100-sector
disk; slices go through buffers 0,1,0 and the 3rd completion idles with
STATUS_OK. -/
theorem acsi_dma_pingpong_spec_witness :
    (read_state (idle_machine 100) (lba24 0 0 0) 3 (3 - 1)).loads =
      (idle_machine 100).loads ++ alt_list 3 ∧
    read_next^[3] (acsi_read_cmd (idle_machine 100) 0 0 0 3) =
      { read_state (idle_machine 100) (lba24 0 0 0) 3 (3 - 1) with
          acsireg := STATUS_OK, dma_mode := 0 } :=
  (acsi_dma_pingpong_spec (idle_machine 100) 0 0 0 3 (by decide) (by decide)).2

theorem shl8_or (a b : Nat) (hb : b < 256) : (a <<< 8) ||| b = 256 * a + b := by
  rw [Nat.shiftLeft_eq, Nat.mul_comm]
  calc 2 ^ 8 * a ||| b = 2 ^ 8 * a + b :=
        (Nat.mul_add_lt_is_or (show b < 2 ^ 8 by omega) a).symm
    _ = 256 * a + b := by norm_num

/-- A list splits as its leading run of elements equal to its head followed
by the rest. -/
theorem run_decomp (v : Nat) (rest : List Nat) :
    v :: rest = List.replicate (1 + (rest.takeWhile (fun b => b == v)).length) v ++
      rest.dropWhile (fun b => b == v) := by
  have ht : rest.takeWhile (fun b => b == v) =
      List.replicate ((rest.takeWhile (fun b => b == v)).length) v := by
    apply List.eq_replicate_of_mem
    intro b hb
    have := List.mem_takeWhile_imp hb
    simpa using this
  conv_lhs => rw [show rest = rest.takeWhile (fun b => b == v) ++
    rest.dropWhile (fun b => b == v) from
      (List.takeWhile_append_dropWhile (p := fun b => b == v) (l := rest)).symm]
  rw [Nat.add_comm, List.replicate_succ]
  conv_lhs => rw [ht]
  simp

theorem takeWhile_run_le (v : Nat) (rest : List Nat) :
    (rest.takeWhile (fun b => b == v)).length ≤ rest.length :=
  (List.takeWhile_sublist _).length_le

/-- A successful `msa_pack` run over a nonempty input produces strictly
fewer than `len` bytes: every emission is budget-checked first. -/
theorem msa_pack_go_length : ∀ (fuel : Nat) (src : List Nat), src.length ≤ fuel →
    ∀ (len pklen : Nat) (P : List Nat), msa_pack_go len fuel src pklen = some P →
      src ≠ [] → pklen + P.length < len := by
  intro fuel
  induction fuel with
  | zero =>
    intro src hl len pklen P _ hne
    exact absurd (List.eq_nil_of_length_eq_zero (by omega)) hne
  | succ N ih =>
    intro src hl len pklen P hp hne
    rcases src with _ | ⟨v, rest⟩
    · exact absurd rfl hne
    simp only [msa_pack_go] at hp
    simp only [List.length_cons] at hl
    set n := 1 + (rest.takeWhile (fun b => b == v)).length with hn
    set rest2 := rest.dropWhile (fun b => b == v) with hrest2
    have hr2len : rest2.length ≤ rest.length :=
      (List.dropWhile_sublist _).length_le
    clear_value n rest2
    split at hp
    · rename_i hcond
      rw [Option.map_eq_some'] at hp
      obtain ⟨P', hP', rfl⟩ := hp
      by_cases hr : rest2 = []
      · rw [hr] at hP'
        simp only [msa_pack_go] at hP'
        obtain rfl : P' = [] := by
          cases N <;> simpa [msa_pack_go] using hP'.symm
        simp only [List.length_cons, List.length_nil]
        omega
      · have := ih rest2 (by omega) len (pklen + 4) P' hP' hr
        simp only [List.length_cons]
        omega
    · split at hp
      · rename_i hcond2
        rw [Option.map_eq_some'] at hp
        obtain ⟨P', hP', rfl⟩ := hp
        by_cases hr : rest2 = []
        · rw [hr] at hP'
          obtain rfl : P' = [] := by
            cases N <;> simpa [msa_pack_go] using hP'.symm
          simp only [List.length_append, List.length_replicate, List.length_nil]
          omega
        · have := ih rest2 (by omega) len (pklen + n) P' hP' hr
          simp only [List.length_append, List.length_replicate]
          omega
      · exact absurd hp (by simp)

/-- Unpacking consumes a literal run byte-for-byte. -/
theorem msa_unpack_go_literals (target v : Nat) (hv : ¬ v = 0xE5) :
    ∀ (n f : Nat) (P acc : List Nat), acc.length + n ≤ target →
      msa_unpack_go target (n + f) (List.replicate n v ++ P) acc =
        msa_unpack_go target f P (acc ++ List.replicate n v) := by
  intro n
  induction n with
  | zero =>
    intro f P acc _
    simp
  | succ k ih =>
    intro f P acc hle
    rw [List.replicate_succ, List.cons_append]
    rw [show k + 1 + f = (k + f) + 1 by omega]
    rw [show msa_unpack_go target ((k + f) + 1) (v :: (List.replicate k v ++ P)) acc =
        msa_unpack_go target (k + f) (List.replicate k v ++ P) (acc ++ [v]) by
      simp only [msa_unpack_go]
      rw [if_neg (by omega), if_neg hv]]
    rw [ih f P (acc ++ [v]) (by simp only [List.length_append, List.length_singleton]; omega)]
    congr 1
    simp

/-- Unpacking a successful pack of an `0xE5`-free input reproduces it. -/
theorem msa_pack_roundtrip_go : ∀ (fuel : Nat) (src : List Nat), src.length ≤ fuel →
    ∀ (len pklen : Nat) (P acc : List Nat),
      msa_pack_go len fuel src pklen = some P →
      (∀ b ∈ src, ¬ b = 0xE5) → src.length < 65536 →
      ∀ ufuel, P.length ≤ ufuel →
      msa_unpack_go (acc.length + src.length) ufuel P acc = some (acc ++ src) := by
  intro fuel
  induction fuel with
  | zero =>
    intro src hl len pklen P acc hp hno hsz ufuel huf
    obtain rfl : src = [] := List.eq_nil_of_length_eq_zero (by omega)
    simp only [msa_pack_go] at hp
    obtain rfl : P = [] := by simpa using hp.symm
    cases ufuel <;> simp [msa_unpack_go]
  | succ N ih =>
    intro src hl len pklen P acc hp hno hsz ufuel huf
    rcases src with _ | ⟨v, rest⟩
    · simp only [msa_pack_go] at hp
      obtain rfl : P = [] := by simpa using hp.symm
      cases ufuel <;> simp [msa_unpack_go]
    simp only [msa_pack_go] at hp
    simp only [List.length_cons] at hl hsz ⊢
    set n := 1 + (rest.takeWhile (fun b => b == v)).length with hn
    set rest2 := rest.dropWhile (fun b => b == v) with hrest2
    have hdec : v :: rest = List.replicate n v ++ rest2 := run_decomp v rest
    have hr2len : rest2.length ≤ rest.length :=
      (List.dropWhile_sublist _).length_le
    have hlen_split : rest.length + 1 = n + rest2.length := by
      have h1 := congrArg List.length hdec
      simpa using h1
    have hno2 : ∀ b ∈ rest2, ¬ b = 0xE5 := by
      intro b hb
      exact hno b (by
        rw [hdec]
        exact List.mem_append_right _ hb)
    have hvne : ¬ v = 0xE5 := hno v (List.mem_cons_self v rest)
    clear_value n rest2
    split at hp
    · rename_i hcond
      rw [Option.map_eq_some'] at hp
      obtain ⟨P', hP', rfl⟩ := hp
      simp only [List.length_cons] at huf
      obtain ⟨uf, rfl⟩ : ∃ uf, ufuel = uf + 1 := ⟨ufuel - 1, by omega⟩
      rw [show msa_unpack_go (acc.length + (rest.length + 1)) (uf + 1)
            (0xE5 :: v :: ((n >>> 8) % 256) :: (n % 256) :: P') acc =
          msa_unpack_go (acc.length + (rest.length + 1)) uf P'
            (acc ++ List.replicate ((((n >>> 8) % 256) <<< 8) ||| (n % 256)) v) by
        simp only [msa_unpack_go]
        rw [if_neg (by omega)]
        simp]
      have hrec : ((n >>> 8) % 256) <<< 8 ||| n % 256 = n := by
        have hd : n >>> 8 = n / 256 := by
          rw [Nat.shiftRight_eq_div_pow]
        have hlt : n / 256 < 256 := by omega
        rw [hd, Nat.mod_eq_of_lt hlt,
            shl8_or (n / 256) (n % 256) (Nat.mod_lt n (by norm_num))]
        omega
      rw [hrec]
      have hrun := ih rest2 (by omega) len (pklen + 4) P'
        (acc ++ List.replicate n v) hP' hno2 (by omega) uf (by omega)
      rw [show (acc ++ List.replicate n v).length + rest2.length =
        acc.length + (rest.length + 1) by simp; omega] at hrun
      rw [hrun, hdec, List.append_assoc]
    · split at hp
      · rename_i hcond2
        rw [Option.map_eq_some'] at hp
        obtain ⟨P', hP', rfl⟩ := hp
        simp only [List.length_append, List.length_replicate] at huf
        obtain ⟨f, rfl⟩ : ∃ f, ufuel = n + f := ⟨ufuel - n, by omega⟩
        rw [msa_unpack_go_literals _ v hvne n f P' acc (by omega)]
        have hrun := ih rest2 (by omega) len (pklen + n) P'
          (acc ++ List.replicate n v) hP' hno2 (by omega) f (by omega)
        rw [show (acc ++ List.replicate n v).length + rest2.length =
          acc.length + (rest.length + 1) by simp; omega] at hrun
        rw [hrun, hdec, List.append_assoc]
      · exact absurd hp (by simp)

/-- C5 (counterexample). `msa_pack` can succeed while emitting a raw,
unescaped 0xE5 byte: on `[7,7,7,7,7,0xE5]` (length 6) the run of five 7s is
escaped (4 output bytes), and then the single 0xE5 fails its budget check
`pklen+4 < len` (4+4 < 6 is false) but passes the literal check
`pklen+1 < len`, so it is emitted raw; the packed stream misparses on
decompression, so unpacking does not restore the input. -/
theorem msa_pack_claim_counterexample :
    msa_pack [7, 7, 7, 7, 7, 0xE5] = some [0xE5, 7, 0, 5, 0xE5] ∧
    msa_unpack 6 [0xE5, 7, 0, 5, 0xE5] ≠ some [7, 7, 7, 7, 7, 0xE5] := by
  decide

/-- A pack-loop state whose input starts with a run longer than 4 bytes
can only succeed through the escape branch: the alternative literal branch
would need `pklen + n < len ≤ pklen + 4`, impossible for `n > 4`
(floppy_img.c lines 386-396). -/
theorem msa_pack_go_escape (len fuel pklen v : Nat) (rest P : List Nat)
    (hp : msa_pack_go len fuel (v :: rest) pklen = some P)
    (hrun : 4 < 1 + (rest.takeWhile (fun b => b == v)).length) :
    ∃ P', P = 0xE5 :: v ::
        (((1 + (rest.takeWhile (fun b => b == v)).length) >>> 8) % 256) ::
        ((1 + (rest.takeWhile (fun b => b == v)).length) % 256) :: P' ∧
      msa_pack_go len (fuel - 1) (rest.dropWhile (fun b => b == v)) (pklen + 4)
        = some P' := by
  rcases fuel with _ | N
  · exact absurd hp (by simp [msa_pack_go])
  simp only [msa_pack_go] at hp
  set n := 1 + (rest.takeWhile (fun b => b == v)).length with hn
  set rest2 := rest.dropWhile (fun b => b == v) with hrest2
  clear_value n rest2
  split at hp
  · rw [Option.map_eq_some'] at hp
    obtain ⟨P', hP', rfl⟩ := hp
    exact ⟨P', rfl, by simpa using hP'⟩
  · rename_i hcond
    split at hp
    · rename_i hcond2
      exact absurd ⟨Or.inl hrun, by omega⟩ hcond
    · exact absurd hp (by simp)

/-- C5 (amended). `msa_pack` either fails (`⊥`, raw fallback) or returns a
stream strictly shorter than the input; every run of five or more identical
bytes is emitted escaped on success - stated for every pack-loop state, and
the loop walks the input one maximal run at a time, so every such run of
the input is escaped, with the loop continuing on the remainder; but a
byte 0xE5 is only guaranteed to be escaped while `pklen + 4 < len` still
holds, so `unpack ∘ pack = id` is guaranteed for inputs that contain no
0xE5 byte (then every escape is explicit and the stream parses back to the
input). -/
theorem msa_pack_spec :
    (∀ (src P : List Nat), msa_pack src = some P → src ≠ [] →
      P.length < src.length) ∧
    (∀ (len fuel pklen v : Nat) (rest P : List Nat),
      msa_pack_go len fuel (v :: rest) pklen = some P →
      4 < 1 + (rest.takeWhile (fun b => b == v)).length →
      ∃ P', P = 0xE5 :: v ::
          (((1 + (rest.takeWhile (fun b => b == v)).length) >>> 8) % 256) ::
          ((1 + (rest.takeWhile (fun b => b == v)).length) % 256) :: P' ∧
        msa_pack_go len (fuel - 1) (rest.dropWhile (fun b => b == v)) (pklen + 4)
          = some P') ∧
    (∀ (src P : List Nat), msa_pack src = some P → (∀ b ∈ src, ¬ b = 0xE5) →
      src.length < 65536 → msa_unpack src.length P = some src) := by
  refine ⟨?_, msa_pack_go_escape, ?_⟩
  · intro src P hp hne
    have := msa_pack_go_length src.length src (Nat.le_refl _) src.length 0 P hp hne
    omega
  · intro src P hp hno hsz
    have := msa_pack_roundtrip_go src.length src (Nat.le_refl _) src.length 0 P [] hp
      hno hsz P.length (Nat.le_refl _)
    simpa [msa_unpack] using this

/-- Witness for `msa_pack_spec`: the 7-byte input `[1,1,1,1,1,1,2]` packs
to the strictly shorter `[0xE5,1,0,6,2]`, its leading 6-byte run of 1s is
emitted as the escape `0xE5,1,0,6`, and the stream unpacks back to the
input. -/
theorem msa_pack_spec_witness :
    msa_pack [1, 1, 1, 1, 1, 1, 2] = some [0xE5, 1, 0, 6, 2] ∧
    ([0xE5, 1, 0, 6, 2] : List Nat).length < ([1, 1, 1, 1, 1, 1, 2] : List Nat).length ∧
    (∃ P', ([0xE5, 1, 0, 6, 2] : List Nat) = 0xE5 :: 1 ::
        (((1 + (([1, 1, 1, 1, 1, 2] : List Nat).takeWhile (fun b => b == 1)).length)
          >>> 8) % 256) ::
        ((1 + (([1, 1, 1, 1, 1, 2] : List Nat).takeWhile (fun b => b == 1)).length)
          % 256) :: P' ∧
      msa_pack_go 7 6 (([1, 1, 1, 1, 1, 2] : List Nat).dropWhile (fun b => b == 1)) 4
        = some P') ∧
    msa_unpack 7 [0xE5, 1, 0, 6, 2] = some [1, 1, 1, 1, 1, 1, 2] :=
  ⟨by decide,
   msa_pack_spec.1 [1, 1, 1, 1, 1, 1, 2] [0xE5, 1, 0, 6, 2] (by decide) (by decide),
   msa_pack_spec.2.1 7 7 0 1 [1, 1, 1, 1, 1, 2] [0xE5, 1, 0, 6, 2] (by decide) (by decide),
   msa_pack_spec.2.2 [1, 1, 1, 1, 1, 1, 2] [0xE5, 1, 0, 6, 2] (by decide) (by decide)
     (by decide)⟩

/-- C7 (counterexample). With no image in drive 0 and a NULL slice staged
in FIFO[2] (as three empty-drive read events leave it), an event with both
the read and write bits set makes the handler call `flopimg_writeback` on
`img[0] == NULL` (floppy.c line 129), a NULL-pointer dereference — not a
silently dropped write as the claim states. -/
theorem floppy_write_claim_counterexample :
    floppy_event demo_flop_empty true true 5 0 0 = none := rfl

/-- C7 (amended). (1) A read event addressed to a drive with no image
leaves the staging area and the images untouched and stages a NULL,
zero-length slice. (2) A write event (the write path only runs on events
that also carry the read bit) commits the staging-area contents — as they
are AFTER this event's own read staging — through the post-shift FIFO[2]
pointer for FIFO[2]'s byte count into the image currently in FIFO[2]'s
drive, and marks that image write-back-pending. (3) When FIFO[2]'s drive
holds no image, a write event is a NULL dereference (`flopimg_writeback`
of NULL), not a silent no-op. -/
theorem floppy_write_spec (st : FlopState) (addr trk drive : Nat) :
    (st.imgs drive = none →
      floppy_event st true false addr trk drive =
        some { imgs := st.imgs,
               fifo0 := { p := none, count := 0, drive := drive },
               fifo1 := st.fifo0, fifo2 := st.fifo1, staging := st.staging }) ∧
    (∀ img2, (floppy_stage st addr trk drive).imgs st.fifo1.drive = some img2 →
      floppy_event st true true addr trk drive =
        some
          { floppy_stage st addr trk drive with
            imgs := fun d =>
              if d = st.fifo1.drive then
                some (commit_img img2 (st.fifo1.p.getD 0)
                  (floppy_stage st addr trk drive).staging st.fifo1.count)
              else (floppy_stage st addr trk drive).imgs d }) ∧
    ((floppy_stage st addr trk drive).imgs st.fifo1.drive = none →
      floppy_event st true true addr trk drive = none) := by
  refine ⟨?_, ?_, ?_⟩
  · intro h
    simp [floppy_event, floppy_stage, h]
  · intro img2 h
    simp only [floppy_event, Bool.true_eq_false, if_false, ite_false, h]
  · intro h
    simp only [floppy_event, Bool.true_eq_false, if_false, ite_false, h]

/-- Witness for `floppy_write_spec`: an empty-drive read leaves the state
inert, and a write event on a loaded state commits the staging area into
the image and marks it write-back-pending. -/
theorem floppy_write_spec_witness :
    (floppy_event demo_flop_empty true false 5 0 0 =
      some { imgs := demo_flop_empty.imgs,
             fifo0 := { p := none, count := 0, drive := 0 },
             fifo1 := demo_flop_empty.fifo0, fifo2 := demo_flop_empty.fifo1,
             staging := demo_flop_empty.staging }) ∧
    (floppy_event demo_flop_loaded true true 0 0 0 =
      some
        { floppy_stage demo_flop_loaded 0 0 0 with
          imgs := fun d =>
            if d = demo_flop_loaded.fifo1.drive then
              some (commit_img demo_img 16
                (floppy_stage demo_flop_loaded 0 0 0).staging 16)
            else (floppy_stage demo_flop_loaded 0 0 0).imgs d }) :=
  ⟨(floppy_write_spec demo_flop_empty 5 0 0).1 rfl,
   (floppy_write_spec demo_flop_loaded 0 0 0).2.1 demo_img rfl⟩

set_option maxRecDepth 4000 in
theorem crc16_table_all :
    ((List.range 256).all (fun i => crc16_table i == ccitt_step^[8] (i <<< 8))) = true := by
  decide

theorem crc16_table_spec (i : Nat) (h : i < 256) :
    crc16_table i = ccitt_step^[8] (i <<< 8) := by
  have h2 := List.all_eq_true.mp crc16_table_all i (List.mem_range.mpr h)
  simpa using h2

theorem xor_mod_65536 (a b : Nat) : (a ^^^ b) % 65536 = a % 65536 ^^^ b % 65536 := by
  have h : (65536 : Nat) = 2 ^ 16 := by norm_num
  apply Nat.eq_of_testBit_eq
  intro i
  rw [h]
  simp only [Nat.testBit_mod_two_pow, Nat.testBit_xor]
  cases hd : decide (i < 16) <;> simp

theorem shiftLeft_xor (a b k : Nat) : (a ^^^ b) <<< k = (a <<< k) ^^^ (b <<< k) := by
  apply Nat.eq_of_testBit_eq
  intro i
  simp only [Nat.testBit_shiftLeft, Nat.testBit_xor]
  cases hd : decide (k ≤ i) <;> simp

theorem testBit15_xor_lo (v y : Nat) (hy : y < 32768) :
    (v ^^^ y).testBit 15 = v.testBit 15 := by
  rw [Nat.testBit_xor, Nat.testBit_lt_two_pow (show y < 2 ^ 15 by omega)]
  simp

theorem ccitt_step_xor (v y : Nat) (hy : y < 32768) :
    ccitt_step (v ^^^ y) = ccitt_step v ^^^ y * 2 := by
  unfold ccitt_step
  rw [testBit15_xor_lo v y hy, shiftLeft_xor]
  rw [Nat.xor_comm (v <<< 1) (y <<< 1), Nat.xor_assoc, xor_mod_65536]
  rw [Nat.xor_comm]
  congr 1
  rw [Nat.shiftLeft_eq, pow_one, Nat.mod_eq_of_lt (by omega)]

theorem ccitt_iter_xor : ∀ (k v y : Nat), y * 2 ^ k < 65536 →
    ccitt_step^[k] (v ^^^ y) = ccitt_step^[k] v ^^^ y * 2 ^ k := by
  intro k
  induction k with
  | zero => intro v y h; simp
  | succ k ih =>
    intro v y h
    have h1 : 1 ≤ 2 ^ k := Nat.one_le_two_pow
    have hp : y * 2 ^ (k + 1) = y * 2 * 2 ^ k := by ring
    have h2 : y * 2 * 2 ^ k < 65536 := by rw [← hp]; exact h
    have h3 : y * 2 ≤ y * 2 * 2 ^ k := Nat.le_mul_of_pos_right _ (by omega)
    rw [Function.iterate_succ_apply, Function.iterate_succ_apply]
    rw [ccitt_step_xor v y (by omega)]
    rw [ih (ccitt_step v) (y * 2) (by omega)]
    congr 1
    ring

theorem crc_decomp (c : Nat) : (c >>> 8) <<< 8 ^^^ c % 256 = c := by
  have h : (256 : Nat) = 2 ^ 8 := by norm_num
  apply Nat.eq_of_testBit_eq
  intro i
  rw [h]
  simp only [Nat.testBit_xor, Nat.testBit_shiftLeft, Nat.testBit_mod_two_pow,
    Nat.testBit_shiftRight]
  rcases Nat.lt_or_ge i 8 with hi | hi
  · have h1 : decide (8 ≤ i) = false := by simp; omega
    have h2 : decide (i < 8) = true := by simp [hi]
    rw [h1, h2]
    simp
  · have h1 : decide (8 ≤ i) = true := by simp [hi]
    have h2 : decide (i < 8) = false := by simp; omega
    rw [h1, h2, show 8 + (i - 8) = i by omega]
    simp

theorem and_255 (c : Nat) : c &&& 255 = c % 256 := by
  have h : (255 : Nat) = 2 ^ 8 - 1 := by norm_num
  have h2 : (256 : Nat) = 2 ^ 8 := by norm_num
  rw [h, h2, Nat.and_pow_two_sub_one_eq_mod]

theorem crc16_update_eq_ccitt (crc b : Nat) (hc : crc < 65536) (hb : b < 256) :
    crc16_update crc b = ccitt_update crc b := by
  have h8 : crc >>> 8 < 256 := by
    rw [Nat.shiftRight_eq_div_pow]
    omega
  have hidx : (crc >>> 8) ^^^ b < 256 := by
    have := Nat.xor_lt_two_pow (show crc >>> 8 < 2 ^ 8 by omega) (show b < 2 ^ 8 by omega)
    omega
  have hsplit : crc ^^^ b <<< 8 = (((crc >>> 8) ^^^ b) <<< 8) ^^^ crc % 256 := by
    rw [shiftLeft_xor]
    conv_lhs => rw [← crc_decomp crc]
    rw [Nat.xor_assoc, Nat.xor_assoc, Nat.xor_comm (crc % 256) (b <<< 8)]
  unfold ccitt_update
  rw [hsplit, ccitt_iter_xor 8 _ (crc % 256) (by have := Nat.mod_lt crc (show 0 < 256 by omega); omega)]
  rw [← crc16_table_spec _ hidx]
  unfold crc16_update
  congr 1
  rw [and_255, Nat.shiftLeft_eq]

theorem crc16_update_lt (crc b : Nat) : crc16_update crc b < 65536 := by
  unfold crc16_update
  have h1 : crc16_table ((crc >>> 8) ^^^ b) < 2 ^ 16 := by
    unfold crc16_table
    exact Nat.mod_lt _ (by norm_num)
  have h2 : (crc &&& 255) <<< 8 < 2 ^ 16 := by
    have h3 : crc &&& 255 < 256 := by
      rw [and_255]
      exact Nat.mod_lt _ (by omega)
    rw [Nat.shiftLeft_eq]
    have : (2 : Nat) ^ 8 = 256 := by norm_num
    have : (2 : Nat) ^ 16 = 65536 := by norm_num
    omega
  have := Nat.xor_lt_two_pow h1 h2
  omega

theorem crc16_foldl_eq : ∀ (l : List Nat) (crc : Nat), crc < 65536 → (∀ b ∈ l, b < 256) →
    l.foldl crc16_update crc = l.foldl ccitt_update crc := by
  intro l
  induction l with
  | nil => intro crc _ _; rfl
  | cons b t ih =>
    intro crc hc hb
    simp only [List.foldl_cons]
    rw [← crc16_update_eq_ccitt crc b hc (hb b (by simp))]
    exact ih _ (crc16_update_lt crc b) (fun x hx => hb x (by simp [hx]))

theorem crc16_eq_ccitt (l : List Nat) (h : ∀ b ∈ l, b < 256) : crc16 l = ccitt_crc l := by
  unfold crc16 ccitt_crc
  exact crc16_foldl_eq l 0xcdb4 (by norm_num) h

theorem sec_payload_length (buf : List Nat) (k : Nat) (h : 512 * k + 512 ≤ buf.length) :
    (sec_payload buf k).length = 512 := by
  simp [sec_payload]
  omega

theorem sec_block_length (g2 g4 t s k : Nat) (pl : List Nat) :
    (sec_block g2 g4 t s k pl).length = 50 + g2 + g4 + pl.length := by
  simp [sec_block, id_field, crc_bytes]
  ring

theorem flatten_const_length (L : Nat) : ∀ ls : List (List Nat),
    (∀ x ∈ ls, x.length = L) → ls.flatten.length = ls.length * L := by
  intro ls
  induction ls with
  | nil => intro _; simp
  | cons x t ih =>
    intro h
    simp only [List.flatten_cons, List.length_append, List.length_cons]
    rw [h x (by simp), ih (fun y hy => h y (by simp [hy]))]
    ring

theorem encode_track_length (n t s : Nat) (order buf : List Nat)
    (hlen : ∀ o ∈ order, 512 * o + 512 ≤ buf.length) :
    (encode_track n t s order buf).length =
      (track_gaps n).1 +
        order.length * (562 + (track_gaps n).2.1 + (track_gaps n).2.2.1) +
        (track_gaps n).2.2.2 := by
  unfold encode_track
  simp only [List.length_append, List.length_replicate]
  rw [flatten_const_length (562 + (track_gaps n).2.1 + (track_gaps n).2.2.1)]
  · simp only [List.length_map]
  · intro x hx
    simp only [List.mem_map] at hx
    obtain ⟨o, ho, rfl⟩ := hx
    rw [sec_block_length, sec_payload_length buf o (hlen o ho)]
    ring

theorem encode_track_split (n t s : Nat) (pre suf : List Nat) (k : Nat) (buf : List Nat)
    (hpre : ∀ o ∈ pre, 512 * o + 512 ≤ buf.length) :
    (encode_track n t s (pre ++ k :: suf) buf).drop
        ((track_gaps n).1 +
          pre.length * (562 + (track_gaps n).2.1 + (track_gaps n).2.2.1) +
          ((track_gaps n).2.1 + 3)) =
      id_field t s k ++ (crc_bytes (crc16 (id_field t s k)) ++
      (List.replicate 22 0x4E ++ (List.replicate 12 0 ++ (List.replicate 3 0xA1 ++
      ((0xFB :: sec_payload buf k) ++ (crc_bytes (crc16 (0xFB :: sec_payload buf k)) ++
      (List.replicate (track_gaps n).2.2.1 0x4E ++
        ((suf.map (fun o => sec_block (track_gaps n).2.1 (track_gaps n).2.2.1 t s o
          (sec_payload buf o))).flatten ++
        List.replicate (track_gaps n).2.2.2 0x4E)))))))) := by
  set g2 := (track_gaps n).2.1 with hg2
  set g4 := (track_gaps n).2.2.1 with hg4
  set L := 562 + g2 + g4 with hL
  set f := fun o => sec_block g2 g4 t s o (sec_payload buf o) with hf
  have hFpre : (pre.map f).flatten.length = pre.length * L := by
    rw [flatten_const_length L]
    · simp
    · intro x hx
      simp only [List.mem_map] at hx
      obtain ⟨o, ho, rfl⟩ := hx
      simp only [hf]
      rw [sec_block_length, sec_payload_length buf o (hpre o ho), hL]
      omega
  unfold encode_track
  rw [List.map_append, List.map_cons]
  simp only [← hg2, ← hg4, ← hf]
  rw [List.flatten_append, List.flatten_cons]
  simp only [List.append_assoc]
  rw [show (track_gaps n).1 + pre.length * L + (g2 + 3)
      = (List.replicate (track_gaps n).1 (0x4E : Nat)).length + (pre.length * L + (g2 + 3)) by
    simp [List.length_replicate]; ring]
  rw [List.drop_append]
  rw [show pre.length * L + (g2 + 3) = (pre.map f).flatten.length + (g2 + 3) by rw [hFpre]]
  rw [List.drop_append]
  simp only [hf]
  unfold sec_block
  simp only [List.append_assoc]
  rw [show g2 + 3 = (List.replicate g2 (0 : Nat)).length + 3 by simp]
  rw [List.drop_append]
  rfl

theorem take_len_append (l1 l2 : List Nat) (m : Nat) (h : l1.length = m) :
    (l1 ++ l2).take m = l1 := by
  rw [← h]
  exact List.take_left l1 l2

theorem drop_len_append (l1 l2 : List Nat) (m : Nat) (h : l1.length = m) :
    (l1 ++ l2).drop m = l2 := by
  rw [← h]
  exact List.drop_left l1 l2

theorem id_field_bytes (t s k : Nat) : ∀ b ∈ id_field t s k, b < 256 := by
  intro b hb
  simp [id_field] at hb
  rcases hb with rfl | rfl | rfl | rfl | rfl <;> omega

theorem sec_payload_bytes (buf : List Nat) (k : Nat) (hbuf : ∀ b ∈ buf, b < 256) :
    ∀ b ∈ sec_payload buf k, b < 256 := by
  intro b hb
  exact hbuf b (List.mem_of_mem_drop (List.mem_of_mem_take hb))

theorem dam_bytes (buf : List Nat) (k : Nat) (hbuf : ∀ b ∈ buf, b < 256) :
    ∀ b ∈ 0xFB :: sec_payload buf k, b < 256 := by
  intro b hb
  rcases List.mem_cons.mp hb with rfl | hb2
  · omega
  · exact sec_payload_bytes buf k hbuf b hb2

/-- C3 (confirmed). In every synthesised MFM track, for the sector emitted
at any position (the order list split as `pre ++ k :: suf`), the 5 ID bytes
after the ID address mark are 0xFE, track, side, sector, 0x02, the two
bytes following them are the bitwise CRC-16/CCITT (polynomial 0x1021,
initial value 0xCDB4) of those 5 bytes, the data address mark region holds
0xFB followed by the 512 payload bytes, and the two bytes after it are the
same CRC of those 513 bytes. -/
theorem mfm_crc_spec (n t s : Nat) (pre suf : List Nat) (k : Nat) (buf : List Nat)
    (hn : n = 9 ∨ n = 10 ∨ n = 11)
    (hbuf : ∀ b ∈ buf, b < 256)
    (hlen : ∀ o ∈ pre ++ k :: suf, 512 * o + 512 ≤ buf.length) :
    ((encode_track n t s (pre ++ k :: suf) buf).drop
        ((track_gaps n).1 +
          pre.length * (562 + (track_gaps n).2.1 + (track_gaps n).2.2.1) +
          ((track_gaps n).2.1 + 3))).take 5 = id_field t s k ∧
    ((encode_track n t s (pre ++ k :: suf) buf).drop
        ((track_gaps n).1 +
          pre.length * (562 + (track_gaps n).2.1 + (track_gaps n).2.2.1) +
          ((track_gaps n).2.1 + 8))).take 2 = crc_bytes (ccitt_crc (id_field t s k)) ∧
    ((encode_track n t s (pre ++ k :: suf) buf).drop
        ((track_gaps n).1 +
          pre.length * (562 + (track_gaps n).2.1 + (track_gaps n).2.2.1) +
          ((track_gaps n).2.1 + 47))).take 513 = 0xFB :: sec_payload buf k ∧
    ((encode_track n t s (pre ++ k :: suf) buf).drop
        ((track_gaps n).1 +
          pre.length * (562 + (track_gaps n).2.1 + (track_gaps n).2.2.1) +
          ((track_gaps n).2.1 + 560))).take 2
      = crc_bytes (ccitt_crc (0xFB :: sec_payload buf k)) := by
  have hplk : (sec_payload buf k).length = 512 :=
    sec_payload_length buf k (hlen k (by simp))
  have hsplit := encode_track_split n t s pre suf k buf (fun o ho => hlen o (by simp [ho]))
  set g2 := (track_gaps n).2.1 with hg2
  set g4 := (track_gaps n).2.2.1 with hg4
  set g1 := (track_gaps n).1 with hg1
  set tr := encode_track n t s (pre ++ k :: suf) buf with htr
  set B := g1 + pre.length * (562 + g2 + g4) with hB
  have hcrcid : crc_bytes (crc16 (id_field t s k)) = crc_bytes (ccitt_crc (id_field t s k)) := by
    rw [crc16_eq_ccitt _ (id_field_bytes t s k)]
  have hcrcdat : crc_bytes (crc16 (0xFB :: sec_payload buf k))
      = crc_bytes (ccitt_crc (0xFB :: sec_payload buf k)) := by
    rw [crc16_eq_ccitt _ (dam_bytes buf k hbuf)]
  refine ⟨?_, ?_, ?_, ?_⟩
  · rw [hsplit]
    exact take_len_append _ _ 5 rfl
  · rw [show B + (g2 + 8) = B + (g2 + 3) + 5 by ring]
    rw [← List.drop_drop, hsplit]
    rw [drop_len_append (id_field t s k) _ 5 rfl]
    rw [take_len_append (crc_bytes (crc16 (id_field t s k))) _ 2 rfl]
    exact hcrcid
  · rw [show B + (g2 + 47) = B + (g2 + 3) + 44 by ring]
    rw [← List.drop_drop, hsplit]
    rw [show id_field t s k ++ (crc_bytes (crc16 (id_field t s k)) ++
        (List.replicate 22 0x4E ++ (List.replicate 12 0 ++ (List.replicate 3 0xA1 ++
        ((0xFB :: sec_payload buf k) ++ (crc_bytes (crc16 (0xFB :: sec_payload buf k)) ++
        (List.replicate g4 0x4E ++
          ((suf.map (fun o => sec_block g2 g4 t s o (sec_payload buf o))).flatten ++
          List.replicate (track_gaps n).2.2.2 0x4E))))))))
      = (id_field t s k ++ (crc_bytes (crc16 (id_field t s k)) ++
          (List.replicate 22 0x4E ++ (List.replicate 12 0 ++ List.replicate 3 0xA1)))) ++
        ((0xFB :: sec_payload buf k) ++ (crc_bytes (crc16 (0xFB :: sec_payload buf k)) ++
        (List.replicate g4 0x4E ++
          ((suf.map (fun o => sec_block g2 g4 t s o (sec_payload buf o))).flatten ++
          List.replicate (track_gaps n).2.2.2 0x4E)))) by
      simp [List.append_assoc]]
    rw [drop_len_append _ _ 44 (by simp [id_field, crc_bytes])]
    exact take_len_append _ _ 513 (by simp [hplk])
  · rw [show B + (g2 + 560) = B + (g2 + 3) + 557 by ring]
    rw [← List.drop_drop, hsplit]
    rw [show id_field t s k ++ (crc_bytes (crc16 (id_field t s k)) ++
        (List.replicate 22 0x4E ++ (List.replicate 12 0 ++ (List.replicate 3 0xA1 ++
        ((0xFB :: sec_payload buf k) ++ (crc_bytes (crc16 (0xFB :: sec_payload buf k)) ++
        (List.replicate g4 0x4E ++
          ((suf.map (fun o => sec_block g2 g4 t s o (sec_payload buf o))).flatten ++
          List.replicate (track_gaps n).2.2.2 0x4E))))))))
      = (id_field t s k ++ (crc_bytes (crc16 (id_field t s k)) ++
          (List.replicate 22 0x4E ++ (List.replicate 12 0 ++ (List.replicate 3 0xA1 ++
          (0xFB :: sec_payload buf k)))))) ++
        (crc_bytes (crc16 (0xFB :: sec_payload buf k)) ++
        (List.replicate g4 0x4E ++
          ((suf.map (fun o => sec_block g2 g4 t s o (sec_payload buf o))).flatten ++
          List.replicate (track_gaps n).2.2.2 0x4E))) by
      simp [List.append_assoc]]
    rw [drop_len_append _ _ 557 (by simp [id_field, crc_bytes, hplk])]
    rw [take_len_append (crc_bytes (crc16 (0xFB :: sec_payload buf k))) _ 2 rfl]
    exact hcrcdat

/-- C4 (amended). Every synthesised track with 9, 10 or 11 sectors and the
gap layout chosen by `track_gaps` totals exactly 6250 bytes. -/
theorem mfm_track_total_spec (n t s : Nat) (order buf : List Nat)
    (hn : n = 9 ∨ n = 10 ∨ n = 11) (ho : order.length = n)
    (hlen : ∀ o ∈ order, 512 * o + 512 ≤ buf.length) :
    (encode_track n t s order buf).length = 6250 := by
  rw [encode_track_length n t s order buf hlen, ho]
  rcases hn with rfl | rfl | rfl <;> rfl

/-- C4 (counterexample). A track total different from 6250 bytes is not a
fatal error: an MSA header declaring 5 sectors per track passes every fatal
header check of `load_st_msa` (magic and start track - the sector count is
never validated), yet the synthesised track totals 3794 bytes; the 6250
check at floppy_img.c line 342 only prints "format error" and the image
still loads. -/
theorem mfm_track_total_claim_counterexample :
    msa_geometry [0x0e, 0x0f, 0, 5, 0, 0, 0, 0, 0, 0] = some (5, 1, 1) ∧
    (encode_track 5 0 0 [0, 1, 2, 3, 4] (List.replicate 2560 0)).length = 3794 := by
  constructor
  · rfl
  · rw [encode_track_length 5 0 0 [0, 1, 2, 3, 4] (List.replicate 2560 0)
      (by intro o ho; simp at ho
          rcases ho with rfl | rfl | rfl | rfl | rfl <;>
            simp only [List.length_replicate] <;> omega)]
    rfl

/-- Witness for `mfm_track_total_spec`: a full 9-sector track. -/
theorem mfm_track_total_spec_witness :
    (encode_track 9 0 0 [0, 1, 2, 3, 4, 5, 6, 7, 8] (List.replicate 4608 0)).length = 6250 :=
  mfm_track_total_spec 9 0 0 [0, 1, 2, 3, 4, 5, 6, 7, 8] (List.replicate 4608 0)
    (by norm_num) (by rfl)
    (by intro o ho; simp at ho
        rcases ho with rfl | rfl | rfl | rfl | rfl | rfl | rfl | rfl | rfl <;>
          simp only [List.length_replicate] <;> omega)

/-- Witness for `mfm_crc_spec`: a 9-sector track with two emitted sectors,
first sector inspected at its concrete byte offsets 75/80/119/632. -/
theorem mfm_crc_spec_witness :
    ((encode_track 9 0 0 [0, 1] (List.replicate 1024 0)).drop 75).take 5 = id_field 0 0 0 ∧
    ((encode_track 9 0 0 [0, 1] (List.replicate 1024 0)).drop 80).take 2
      = crc_bytes (ccitt_crc (id_field 0 0 0)) ∧
    ((encode_track 9 0 0 [0, 1] (List.replicate 1024 0)).drop 119).take 513
      = 0xFB :: sec_payload (List.replicate 1024 0) 0 ∧
    ((encode_track 9 0 0 [0, 1] (List.replicate 1024 0)).drop 632).take 2
      = crc_bytes (ccitt_crc (0xFB :: sec_payload (List.replicate 1024 0) 0)) :=
  mfm_crc_spec 9 0 0 [] [1] 0 (List.replicate 1024 0) (by norm_num)
    (by intro b hb
        have hb0 := List.eq_of_mem_replicate hb
        omega)
    (by intro o ho; simp at ho
        rcases ho with rfl | rfl <;> simp only [List.length_replicate] <;> omega)


theorem getD_replicate_lt (n a j d : Nat) (h : j < n) :
    (List.replicate n a).getD j d = a := by
  simp [List.getD, List.get?_eq_getElem?, List.getElem?_replicate, h]

theorem getD_drop_add (l : List Nat) (q m d : Nat) :
    (l.drop q).getD m d = l.getD (q + m) d := by
  simp [List.getD, List.get?_eq_getElem?, List.getElem?_drop]

theorem am_at_drop (l : List Nat) (q m : Nat) :
    am_at (l.drop q) m = am_at l (q + m) := by
  simp [am_at, getD_drop_add, Nat.add_assoc]

theorem findam_go_found (l : List Nat) : ∀ (fuel i j : Nat), i ≤ j → j < i + fuel →
    am_at l j = true → (∀ m, i ≤ m → m < j → am_at l m = false) →
    findam_go l fuel i = some j := by
  intro fuel
  induction fuel with
  | zero => intro i j h1 h2; omega
  | succ fuel ih =>
    intro i j h1 h2 h3 h4
    unfold findam_go
    rcases Nat.eq_or_lt_of_le h1 with rfl | hlt
    · rw [h3]
      simp
    · rw [h4 i (by omega) hlt]
      simp only [Bool.false_eq_true, if_false]
      exact ih (i + 1) j (by omega) (by omega) h3 (fun m hm1 hm2 => h4 m (by omega) hm2)

theorem findam_found (l : List Nat) (i j : Nat) (h1 : i ≤ j) (h2 : j < 6244)
    (h3 : am_at l j = true) (h4 : ∀ m, i ≤ m → m < j → am_at l m = false) :
    findam l i = some j :=
  findam_go_found l (6244 - i) i j h1 (by omega) h3 h4

theorem sec_view_restr1 (c g2 g4 t s k : Nat) (pl R : List Nat) :
    sec_view c g2 g4 t s k pl R =
      (List.replicate c (0x4E : Nat) ++ (List.replicate g2 0 ++ List.replicate 3 0xA1)) ++
      (id_field t s k ++ (crc_bytes (crc16 (id_field t s k)) ++ (List.replicate 22 0x4E ++
        (List.replicate 12 0 ++ (List.replicate 3 0xA1 ++ ((0xFB :: pl) ++
        (crc_bytes (crc16 (0xFB :: pl)) ++ (List.replicate g4 0x4E ++ R)))))))) := by
  simp [sec_view, sec_block, List.append_assoc]

theorem sec_view_drop_id (c g2 g4 t s k : Nat) (pl R : List Nat) :
    (sec_view c g2 g4 t s k pl R).drop (c + g2 + 3) =
      id_field t s k ++ (crc_bytes (crc16 (id_field t s k)) ++ (List.replicate 22 0x4E ++
        (List.replicate 12 0 ++ (List.replicate 3 0xA1 ++ ((0xFB :: pl) ++
        (crc_bytes (crc16 (0xFB :: pl)) ++ (List.replicate g4 0x4E ++ R))))))) := by
  rw [sec_view_restr1]
  exact drop_len_append _ _ _ (by simp [List.length_replicate]; omega)

theorem sec_view_byte_gap1 (c g2 g4 t s k p : Nat) (pl R : List Nat) (hp : p < c) :
    (sec_view c g2 g4 t s k pl R).getD p 0 = 0x4E := by
  unfold sec_view
  rw [List.getD_append _ _ _ _ (by simp [List.length_replicate]; omega)]
  exact getD_replicate_lt c 0x4E p 0 hp

theorem sec_view_byte_zero1 (c g2 g4 t s k p : Nat) (pl R : List Nat)
    (h1 : c ≤ p) (h2 : p < c + g2) :
    (sec_view c g2 g4 t s k pl R).getD p 0 = 0 := by
  rw [sec_view_restr1]
  rw [List.getD_append _ _ _ _ (by simp [List.length_replicate]; omega)]
  rw [List.getD_append_right _ _ _ _ (by simp [List.length_replicate]; omega)]
  rw [List.getD_append _ _ _ _ (by simp [List.length_replicate]; omega)]
  exact getD_replicate_lt g2 0 _ 0 (by simp [List.length_replicate]; omega)

theorem sec_view_byte_am1 (c g2 g4 t s k p : Nat) (pl R : List Nat)
    (h1 : c + g2 ≤ p) (h2 : p < c + g2 + 3) :
    (sec_view c g2 g4 t s k pl R).getD p 0 = 0xA1 := by
  rw [sec_view_restr1]
  rw [List.getD_append _ _ _ _ (by simp [List.length_replicate]; omega)]
  rw [List.getD_append_right _ _ _ _ (by simp [List.length_replicate]; omega)]
  rw [List.getD_append_right _ _ _ _ (by simp [List.length_replicate]; omega)]
  exact getD_replicate_lt 3 0xA1 _ 0 (by simp [List.length_replicate]; omega)

theorem sec_view_byte_id (c g2 g4 t s k i : Nat) (pl R : List Nat) (hi : i < 5) :
    (sec_view c g2 g4 t s k pl R).getD (c + g2 + 3 + i) 0 =
      (id_field t s k).getD i 0 := by
  rw [← getD_drop_add, sec_view_drop_id]
  exact List.getD_append _ _ _ _ (by simp [id_field]; omega)

theorem sec_view_drop_crc (c g2 g4 t s k : Nat) (pl R : List Nat) :
    (sec_view c g2 g4 t s k pl R).drop (c + g2 + 10) =
      List.replicate 22 0x4E ++
        (List.replicate 12 0 ++ (List.replicate 3 0xA1 ++ ((0xFB :: pl) ++
        (crc_bytes (crc16 (0xFB :: pl)) ++ (List.replicate g4 0x4E ++ R))))) := by
  rw [show sec_view c g2 g4 t s k pl R =
      (List.replicate c (0x4E : Nat) ++ (List.replicate g2 0 ++ (List.replicate 3 0xA1 ++
        (id_field t s k ++ crc_bytes (crc16 (id_field t s k)))))) ++
      (List.replicate 22 0x4E ++
        (List.replicate 12 0 ++ (List.replicate 3 0xA1 ++ ((0xFB :: pl) ++
        (crc_bytes (crc16 (0xFB :: pl)) ++ (List.replicate g4 0x4E ++ R)))))) by
    simp [sec_view, sec_block, List.append_assoc]]
  exact drop_len_append _ _ _ (by simp [List.length_replicate, id_field, crc_bytes]; omega)

theorem sec_view_byte_gap2 (c g2 g4 t s k p : Nat) (pl R : List Nat)
    (h1 : c + g2 + 10 ≤ p) (h2 : p < c + g2 + 32) :
    (sec_view c g2 g4 t s k pl R).getD p 0 = 0x4E := by
  rw [show p = c + g2 + 10 + (p - (c + g2 + 10)) by omega, ← getD_drop_add,
    sec_view_drop_crc]
  rw [List.getD_append _ _ _ _ (by simp [List.length_replicate]; omega)]
  exact getD_replicate_lt 22 0x4E _ 0 (by omega)

theorem sec_view_byte_zero2 (c g2 g4 t s k p : Nat) (pl R : List Nat)
    (h1 : c + g2 + 32 ≤ p) (h2 : p < c + g2 + 44) :
    (sec_view c g2 g4 t s k pl R).getD p 0 = 0 := by
  rw [show p = c + g2 + 10 + (p - (c + g2 + 10)) by omega, ← getD_drop_add,
    sec_view_drop_crc]
  rw [List.getD_append_right _ _ _ _ (by simp [List.length_replicate]; omega)]
  rw [List.getD_append _ _ _ _ (by simp [List.length_replicate]; omega)]
  exact getD_replicate_lt 12 0 _ 0 (by simp [List.length_replicate]; omega)

theorem sec_view_byte_am2 (c g2 g4 t s k p : Nat) (pl R : List Nat)
    (h1 : c + g2 + 44 ≤ p) (h2 : p < c + g2 + 47) :
    (sec_view c g2 g4 t s k pl R).getD p 0 = 0xA1 := by
  rw [show p = c + g2 + 10 + (p - (c + g2 + 10)) by omega, ← getD_drop_add,
    sec_view_drop_crc]
  rw [List.getD_append_right _ _ _ _ (by simp [List.length_replicate]; omega)]
  rw [List.getD_append_right _ _ _ _ (by simp [List.length_replicate]; omega)]
  rw [List.getD_append _ _ _ _ (by simp [List.length_replicate]; omega)]
  exact getD_replicate_lt 3 0xA1 _ 0 (by simp [List.length_replicate]; omega)

theorem sec_view_byte_fb (c g2 g4 t s k : Nat) (pl R : List Nat) :
    (sec_view c g2 g4 t s k pl R).getD (c + g2 + 47) 0 = 0xFB := by
  rw [show c + g2 + 47 = c + g2 + 10 + 37 by omega, ← getD_drop_add, sec_view_drop_crc]
  rw [List.getD_append_right _ _ _ _ (by simp [List.length_replicate])]
  rw [List.getD_append_right _ _ _ _ (by simp [List.length_replicate])]
  rw [List.getD_append_right _ _ _ _ (by simp [List.length_replicate])]
  rw [List.getD_append _ _ _ _ (by simp [List.length_replicate])]
  norm_num [List.length_replicate]

theorem sec_view_drop_payload (c g2 g4 t s k : Nat) (pl R : List Nat) :
    (sec_view c g2 g4 t s k pl R).drop (c + g2 + 48) =
      pl ++ (crc_bytes (crc16 (0xFB :: pl)) ++ (List.replicate g4 0x4E ++ R)) := by
  rw [show sec_view c g2 g4 t s k pl R =
      (List.replicate c (0x4E : Nat) ++ (List.replicate g2 0 ++ (List.replicate 3 0xA1 ++
        (id_field t s k ++ (crc_bytes (crc16 (id_field t s k)) ++ (List.replicate 22 0x4E ++
        (List.replicate 12 0 ++ (List.replicate 3 0xA1 ++ [0xFB])))))))) ++
      (pl ++ (crc_bytes (crc16 (0xFB :: pl)) ++ (List.replicate g4 0x4E ++ R))) by
    simp [sec_view, sec_block, List.append_assoc]]
  exact drop_len_append _ _ _
    (by simp [List.length_replicate, id_field, crc_bytes]; omega)

theorem sec_view_drop_skip (c g2 g4 t s k : Nat) (pl R : List Nat)
    (hpl : pl.length = 512) :
    (sec_view c g2 g4 t s k pl R).drop (c + g2 + 562) =
      List.replicate g4 0x4E ++ R := by
  rw [show sec_view c g2 g4 t s k pl R =
      (List.replicate c (0x4E : Nat) ++ (List.replicate g2 0 ++ (List.replicate 3 0xA1 ++
        (id_field t s k ++ (crc_bytes (crc16 (id_field t s k)) ++ (List.replicate 22 0x4E ++
        (List.replicate 12 0 ++ (List.replicate 3 0xA1 ++ ((0xFB :: pl) ++
        crc_bytes (crc16 (0xFB :: pl))))))))))) ++
      (List.replicate g4 0x4E ++ R) by
    simp [sec_view, sec_block, List.append_assoc]]
  exact drop_len_append _ _ _
    (by simp [List.length_replicate, id_field, crc_bytes, hpl]; omega)

theorem sec_view_am_true1 (c g2 g4 t s k : Nat) (pl R : List Nat) (hg2 : 3 ≤ g2) :
    am_at (sec_view c g2 g4 t s k pl R) (c + g2 - 3) = true := by
  unfold am_at
  rw [show c + g2 - 3 + 1 = c + g2 - 2 by omega, show c + g2 - 3 + 2 = c + g2 - 1 by omega,
    show c + g2 - 3 + 3 = c + g2 by omega, show c + g2 - 3 + 4 = c + g2 + 1 by omega,
    show c + g2 - 3 + 5 = c + g2 + 2 by omega]
  rw [sec_view_byte_zero1 c g2 g4 t s k _ pl R (by omega) (by omega),
    sec_view_byte_zero1 c g2 g4 t s k _ pl R (by omega) (by omega),
    sec_view_byte_zero1 c g2 g4 t s k _ pl R (by omega) (by omega),
    sec_view_byte_am1 c g2 g4 t s k _ pl R (by omega) (by omega),
    sec_view_byte_am1 c g2 g4 t s k _ pl R (by omega) (by omega),
    sec_view_byte_am1 c g2 g4 t s k _ pl R (by omega) (by omega)]
  rfl

theorem sec_view_am_true2 (c g2 g4 t s k : Nat) (pl R : List Nat) :
    am_at (sec_view c g2 g4 t s k pl R) (c + g2 + 41) = true := by
  unfold am_at
  rw [show c + g2 + 41 + 1 = c + g2 + 42 by omega, show c + g2 + 41 + 2 = c + g2 + 43 by omega,
    show c + g2 + 41 + 3 = c + g2 + 44 by omega, show c + g2 + 41 + 4 = c + g2 + 45 by omega,
    show c + g2 + 41 + 5 = c + g2 + 46 by omega]
  rw [sec_view_byte_zero2 c g2 g4 t s k _ pl R (by omega) (by omega),
    sec_view_byte_zero2 c g2 g4 t s k _ pl R (by omega) (by omega),
    sec_view_byte_zero2 c g2 g4 t s k _ pl R (by omega) (by omega),
    sec_view_byte_am2 c g2 g4 t s k _ pl R (by omega) (by omega),
    sec_view_byte_am2 c g2 g4 t s k _ pl R (by omega) (by omega),
    sec_view_byte_am2 c g2 g4 t s k _ pl R (by omega) (by omega)]
  rfl

theorem sec_view_am_false_pre (c g2 g4 t s k p : Nat) (pl R : List Nat)
    (hp : p + 3 < c + g2) :
    am_at (sec_view c g2 g4 t s k pl R) p = false := by
  unfold am_at
  rcases Nat.lt_or_ge (p + 3) c with h | h
  · rw [sec_view_byte_gap1 c g2 g4 t s k (p + 3) pl R h]
    simp
  · rw [sec_view_byte_zero1 c g2 g4 t s k (p + 3) pl R h hp]
    simp

theorem sec_view_am_false_mid (c g2 g4 t s k p : Nat) (pl R : List Nat)
    (h1 : c + g2 + 8 ≤ p) (h2 : p < c + g2 + 41) :
    am_at (sec_view c g2 g4 t s k pl R) p = false := by
  unfold am_at
  rcases Nat.lt_or_ge (p + 3) (c + g2 + 32) with h | h
  · rw [sec_view_byte_gap2 c g2 g4 t s k (p + 3) pl R (by omega) h]
    simp
  · rw [sec_view_byte_zero2 c g2 g4 t s k (p + 3) pl R h (by omega)]
    simp

theorem find_sector_go_view (t s g2 g4 g5 : Nat) (buf tr : List Nat)
    (htr : tr.length = 6250) (ht : t < 256) (hs : s < 256) (hg2 : 3 ≤ g2) :
    ∀ (pre : List Nat) (k : Nat) (suf : List Nat) (fuel q c : Nat),
    pre.length < fuel →
    tr.drop q =
      List.replicate c 0x4E ++
        (((pre ++ k :: suf).map
            (fun o => sec_block g2 g4 t s o (sec_payload buf o))).flatten ++
          List.replicate g5 0x4E) →
    (∀ o ∈ pre ++ k :: suf, o + 1 < 256 ∧ (sec_payload buf o).length = 512) →
    (∀ o ∈ pre, o ≠ k) →
    ∃ i, find_sector_go tr t s (k + 1) fuel q = some i ∧
      (tr.drop i).take 512 = sec_payload buf k := by
  intro pre
  induction pre with
  | nil =>
    intro k suf fuel q c hfuel hq hok hkpre
    obtain ⟨f2, rfl⟩ : ∃ f2, fuel = f2 + 1 := ⟨fuel - 1, by omega⟩
    have hpl : (sec_payload buf k).length = 512 := (hok k (by simp)).2
    have hk1 : k + 1 < 256 := (hok k (by simp)).1
    have hv : tr.drop q = sec_view c g2 g4 t s k (sec_payload buf k)
        ((suf.map (fun o => sec_block g2 g4 t s o (sec_payload buf o))).flatten ++
          List.replicate g5 0x4E) := by
      rw [hq]
      simp [sec_view, List.append_assoc]
    have hlen : 6250 - q = c + (g2 + 562 + g4 +
        ((suf.map (fun o => sec_block g2 g4 t s o (sec_payload buf o))).flatten ++
          List.replicate g5 0x4E).length) := by
      have h1 := congrArg List.length hv
      rw [List.length_drop, htr] at h1
      rw [h1]
      simp [sec_view, sec_block_length, hpl, id_field, crc_bytes, List.length_replicate]
      omega
    have hq6 : q + c + g2 + 41 < 6244 := by omega
    have hbyte : ∀ m v, (sec_view c g2 g4 t s k (sec_payload buf k)
        ((suf.map (fun o => sec_block g2 g4 t s o (sec_payload buf o))).flatten ++
          List.replicate g5 0x4E)).getD m 0 = v → tr.getD (q + m) 0 = v := by
      intro m v hm
      rw [← getD_drop_add, hv, hm]
    have ham : ∀ m b, am_at (sec_view c g2 g4 t s k (sec_payload buf k)
        ((suf.map (fun o => sec_block g2 g4 t s o (sec_payload buf o))).flatten ++
          List.replicate g5 0x4E)) m = b → am_at tr (q + m) = b := by
      intro m b hm
      rw [← am_at_drop, hv, hm]
    have hfind1 : findam tr q = some (q + (c + g2 - 3)) := by
      apply findam_found tr q _ (by omega) (by omega)
      · exact ham _ _ (sec_view_am_true1 c g2 g4 t s k _ _ hg2)
      · intro m hm1 hm2
        rw [show m = q + (m - q) by omega]
        exact ham _ _ (sec_view_am_false_pre c g2 g4 t s k _ _ _ (by omega))
    have hfind2 : findam tr (q + (c + g2 - 3) + 11) = some (q + (c + g2 + 41)) := by
      apply findam_found tr _ _ (by omega) (by omega)
      · exact ham _ _ (sec_view_am_true2 c g2 g4 t s k _ _)
      · intro m hm1 hm2
        rw [show m = q + (m - q) by omega]
        exact ham _ _ (sec_view_am_false_mid c g2 g4 t s k _ _ _ (by omega) (by omega))
    have hb6 : tr.getD (q + (c + g2 - 3) + 6) 0 = 0xFE := by
      rw [show q + (c + g2 - 3) + 6 = q + (c + g2 + 3 + 0) by omega]
      exact hbyte _ _ (by rw [sec_view_byte_id c g2 g4 t s k 0 _ _ (by omega)]; rfl)
    have hb7 : tr.getD (q + (c + g2 - 3) + 7) 0 = t := by
      rw [show q + (c + g2 - 3) + 7 = q + (c + g2 + 3 + 1) by omega]
      apply hbyte
      rw [sec_view_byte_id c g2 g4 t s k 1 _ _ (by omega)]
      show t % 256 = t
      omega
    have hb8 : tr.getD (q + (c + g2 - 3) + 8) 0 = s := by
      rw [show q + (c + g2 - 3) + 8 = q + (c + g2 + 3 + 2) by omega]
      apply hbyte
      rw [sec_view_byte_id c g2 g4 t s k 2 _ _ (by omega)]
      show s % 256 = s
      omega
    have hb9 : tr.getD (q + (c + g2 - 3) + 9) 0 = k + 1 := by
      rw [show q + (c + g2 - 3) + 9 = q + (c + g2 + 3 + 3) by omega]
      apply hbyte
      rw [sec_view_byte_id c g2 g4 t s k 3 _ _ (by omega)]
      show (k + 1) % 256 = k + 1
      omega
    have hbfb : tr.getD (q + (c + g2 + 41) + 6) 0 = 0xFB := by
      rw [show q + (c + g2 + 41) + 6 = q + (c + g2 + 47) by omega]
      exact hbyte _ _ (sec_view_byte_fb c g2 g4 t s k _ _)
    refine ⟨q + (c + g2 + 41) + 7, ?_, ?_⟩
    · simp only [find_sector_go]
      rw [hfind1, Option.some_bind]
      rw [if_neg (not_not_intro ⟨hb6, hb7, hb8⟩)]
      rw [hfind2, Option.some_bind]
      rw [if_neg (not_not_intro hbfb)]
      rw [hb9, if_pos rfl]
    · rw [show q + (c + g2 + 41) + 7 = q + (c + g2 + 48) by omega]
      rw [← List.drop_drop, hv, sec_view_drop_payload]
      exact take_len_append _ _ 512 hpl
  | cons k0 pre ih =>
    intro k suf fuel q c hfuel hq hok hkpre
    obtain ⟨f2, rfl⟩ : ∃ f2, fuel = f2 + 1 := ⟨fuel - 1, by omega⟩
    have hpl : (sec_payload buf k0).length = 512 := (hok k0 (by simp)).2
    have hk1 : k0 + 1 < 256 := (hok k0 (by simp)).1
    have hRsh : ((k0 :: pre ++ k :: suf).map
        (fun o => sec_block g2 g4 t s o (sec_payload buf o))).flatten =
        sec_block g2 g4 t s k0 (sec_payload buf k0) ++
        (((pre ++ k :: suf).map
            (fun o => sec_block g2 g4 t s o (sec_payload buf o))).flatten) := by
      simp
    have hv : tr.drop q = sec_view c g2 g4 t s k0 (sec_payload buf k0)
        (((pre ++ k :: suf).map
            (fun o => sec_block g2 g4 t s o (sec_payload buf o))).flatten ++
          List.replicate g5 0x4E) := by
      rw [hq, hRsh]
      simp [sec_view, List.append_assoc]
    have hlen : 6250 - q = c + (g2 + 562 + g4 +
        (((pre ++ k :: suf).map
            (fun o => sec_block g2 g4 t s o (sec_payload buf o))).flatten ++
          List.replicate g5 0x4E).length) := by
      have h1 := congrArg List.length hv
      rw [List.length_drop, htr] at h1
      rw [h1]
      simp [sec_view, sec_block_length, hpl, id_field, crc_bytes, List.length_replicate]
      omega
    have hq6 : q + c + g2 + 41 < 6244 := by omega
    have hbyte : ∀ m v, (sec_view c g2 g4 t s k0 (sec_payload buf k0)
        (((pre ++ k :: suf).map
            (fun o => sec_block g2 g4 t s o (sec_payload buf o))).flatten ++
          List.replicate g5 0x4E)).getD m 0 = v → tr.getD (q + m) 0 = v := by
      intro m v hm
      rw [← getD_drop_add, hv, hm]
    have ham : ∀ m b, am_at (sec_view c g2 g4 t s k0 (sec_payload buf k0)
        (((pre ++ k :: suf).map
            (fun o => sec_block g2 g4 t s o (sec_payload buf o))).flatten ++
          List.replicate g5 0x4E)) m = b → am_at tr (q + m) = b := by
      intro m b hm
      rw [← am_at_drop, hv, hm]
    have hfind1 : findam tr q = some (q + (c + g2 - 3)) := by
      apply findam_found tr q _ (by omega) (by omega)
      · exact ham _ _ (sec_view_am_true1 c g2 g4 t s k0 _ _ hg2)
      · intro m hm1 hm2
        rw [show m = q + (m - q) by omega]
        exact ham _ _ (sec_view_am_false_pre c g2 g4 t s k0 _ _ _ (by omega))
    have hfind2 : findam tr (q + (c + g2 - 3) + 11) = some (q + (c + g2 + 41)) := by
      apply findam_found tr _ _ (by omega) (by omega)
      · exact ham _ _ (sec_view_am_true2 c g2 g4 t s k0 _ _)
      · intro m hm1 hm2
        rw [show m = q + (m - q) by omega]
        exact ham _ _ (sec_view_am_false_mid c g2 g4 t s k0 _ _ _ (by omega) (by omega))
    have hb6 : tr.getD (q + (c + g2 - 3) + 6) 0 = 0xFE := by
      rw [show q + (c + g2 - 3) + 6 = q + (c + g2 + 3 + 0) by omega]
      exact hbyte _ _ (by rw [sec_view_byte_id c g2 g4 t s k0 0 _ _ (by omega)]; rfl)
    have hb7 : tr.getD (q + (c + g2 - 3) + 7) 0 = t := by
      rw [show q + (c + g2 - 3) + 7 = q + (c + g2 + 3 + 1) by omega]
      apply hbyte
      rw [sec_view_byte_id c g2 g4 t s k0 1 _ _ (by omega)]
      show t % 256 = t
      omega
    have hb8 : tr.getD (q + (c + g2 - 3) + 8) 0 = s := by
      rw [show q + (c + g2 - 3) + 8 = q + (c + g2 + 3 + 2) by omega]
      apply hbyte
      rw [sec_view_byte_id c g2 g4 t s k0 2 _ _ (by omega)]
      show s % 256 = s
      omega
    have hb9 : tr.getD (q + (c + g2 - 3) + 9) 0 = k0 + 1 := by
      rw [show q + (c + g2 - 3) + 9 = q + (c + g2 + 3 + 3) by omega]
      apply hbyte
      rw [sec_view_byte_id c g2 g4 t s k0 3 _ _ (by omega)]
      show (k0 + 1) % 256 = k0 + 1
      omega
    have hbfb : tr.getD (q + (c + g2 + 41) + 6) 0 = 0xFB := by
      rw [show q + (c + g2 + 41) + 6 = q + (c + g2 + 47) by omega]
      exact hbyte _ _ (sec_view_byte_fb c g2 g4 t s k0 _ _)
    have hne : k0 ≠ k := hkpre k0 (by simp)
    have hq2 : tr.drop (q + (c + g2 + 41) + 521) =
        List.replicate g4 0x4E ++
          (((pre ++ k :: suf).map
              (fun o => sec_block g2 g4 t s o (sec_payload buf o))).flatten ++
            List.replicate g5 0x4E) := by
      rw [show q + (c + g2 + 41) + 521 = q + (c + g2 + 562) by omega]
      rw [← List.drop_drop, hv]
      exact sec_view_drop_skip c g2 g4 t s k0 _ _ hpl
    obtain ⟨i, hfs, hext⟩ := ih k suf f2 (q + (c + g2 + 41) + 521) g4
      (by simpa using Nat.lt_of_succ_lt_succ (by simpa using hfuel)) hq2
      (fun o ho => hok o (by simp at ho ⊢; tauto))
      (fun o ho => hkpre o (by simp [ho]))
    refine ⟨i, ?_, hext⟩
    simp only [find_sector_go]
    rw [hfind1, Option.some_bind]
    rw [if_neg (not_not_intro ⟨hb6, hb7, hb8⟩)]
    rw [hfind2, Option.some_bind]
    rw [if_neg (not_not_intro hbfb)]
    rw [hb9, if_neg (by omega)]
    exact hfs

theorem getD_take (l : List Nat) (n m d : Nat) (h : m < n) :
    (l.take n).getD m d = l.getD m d := by
  simp [List.getD, List.get?_eq_getElem?, List.getElem?_take, h]

theorem build_order_911 : build_order 9 1 1 = [8, 0, 1, 2, 3, 4, 5, 6, 7] := by decide

/-- C2 (amended core). Decoding a synthesised track recovers every sector
payload exactly: for any sector `k` of the emission order (first occurrence
at the split `pre ++ k :: suf`), `find_sector` on the synthesised track
succeeds and returns the position of a 512-byte run equal to the payload
that was encoded.  Hence the save paths, which extract sectors with
`find_sector`, write back exactly the decoded payloads, and open-sync-
reopen is a fixed point whenever the geometry the save path re-reads from
the boot-sector BPB agrees with the load geometry. -/
theorem st_msa_roundtrip_spec (n t s : Nat) (pre suf : List Nat) (k : Nat) (buf : List Nat)
    (hn : n = 9 ∨ n = 10 ∨ n = 11)
    (hcount : (pre ++ k :: suf).length = n)
    (ht : t < 256) (hs : s < 256)
    (hsec : ∀ o ∈ pre ++ k :: suf, o + 1 < 256)
    (hk : ∀ o ∈ pre, o ≠ k)
    (hlen : ∀ o ∈ pre ++ k :: suf, 512 * o + 512 ≤ buf.length) :
    ∃ i, find_sector (encode_track n t s (pre ++ k :: suf) buf) t s (k + 1) = some i ∧
      ((encode_track n t s (pre ++ k :: suf) buf).drop i).take 512 = sec_payload buf k := by
  have hg2 : 3 ≤ (track_gaps n).2.1 := by
    rcases hn with rfl | rfl | rfl <;> decide
  have htr : (encode_track n t s (pre ++ k :: suf) buf).length = 6250 := by
    rw [encode_track_length n t s (pre ++ k :: suf) buf hlen, hcount]
    rcases hn with rfl | rfl | rfl <;> rfl
  have hpre12 : pre.length < 12 := by
    have := hcount
    simp [List.length_append] at this
    omega
  have hq0 : (encode_track n t s (pre ++ k :: suf) buf).drop 0 =
      List.replicate (track_gaps n).1 0x4E ++
        (((pre ++ k :: suf).map
            (fun o => sec_block (track_gaps n).2.1 (track_gaps n).2.2.1 t s o
              (sec_payload buf o))).flatten ++
          List.replicate (track_gaps n).2.2.2 0x4E) := by
    simp [encode_track, List.append_assoc]
  exact find_sector_go_view t s (track_gaps n).2.1 (track_gaps n).2.2.1 (track_gaps n).2.2.2
    buf _ htr ht hs hg2 pre k suf 12 0 (track_gaps n).1 hpre12 hq0
    (fun o ho => ⟨(hsec o ho), sec_payload_length buf o (hlen o ho)⟩) hk

/-- C2 (counterexample). The fixed point fails for an accepted MSA image
whose boot-sector BPB disagrees with the MSA header: the header declares
9 sectors per track (and passes every fatal load check), but save_msa
re-reads the geometry from the BPB of the synthesised track, obtaining
8 sectors per track - so the file written back has a different geometry
than the original and sector 9 of the original is not preserved. -/
theorem st_msa_roundtrip_claim_counterexample :
    msa_geometry msa_hdr9 = some (9, 1, 1) ∧
    bpb_geometry (encode_track 9 0 0 (build_order 9 1 1) boot8) = some (8, 1, 1) := by
  constructor
  · rfl
  · have hbl : boot8.length = 4608 := by
      unfold boot8
      simp only [List.length_append, List.length_replicate, List.length_cons,
        List.length_nil]
    obtain ⟨i, hf, hext⟩ := st_msa_roundtrip_spec 9 0 0 [8] [1, 2, 3, 4, 5, 6, 7] 0 boot8
      (by norm_num) (by rfl) (by omega) (by omega)
      (by intro o ho; simp at ho; omega)
      (by intro o ho; simp at ho; omega)
      (by intro o ho; rw [hbl]; simp at ho; omega)
    rw [build_order_911]
    unfold bpb_geometry
    rw [show ([8] ++ 0 :: [1, 2, 3, 4, 5, 6, 7] : List Nat) = [8, 0, 1, 2, 3, 4, 5, 6, 7]
      from rfl] at hf hext
    rw [hf]
    have hgd : ∀ m, m < 512 →
        (encode_track 9 0 0 [8, 0, 1, 2, 3, 4, 5, 6, 7] boot8).getD (i + m) 0 =
          boot8.getD m 0 := by
      intro m hm
      rw [← getD_drop_add, ← getD_take _ 512 m 0 hm, hext]
      unfold sec_payload
      rw [Nat.mul_zero, List.drop_zero]
      exact getD_take _ 512 m 0 hm
    have e24 : (encode_track 9 0 0 [8, 0, 1, 2, 3, 4, 5, 6, 7] boot8).getD (i + 24) 0 = 8 := by
      rw [hgd 24 (by omega)]
      rfl
    have e25 : (encode_track 9 0 0 [8, 0, 1, 2, 3, 4, 5, 6, 7] boot8).getD (i + 25) 0 = 0 := by
      rw [hgd 25 (by omega)]
      rfl
    have e26 : (encode_track 9 0 0 [8, 0, 1, 2, 3, 4, 5, 6, 7] boot8).getD (i + 26) 0 = 1 := by
      rw [hgd 26 (by omega)]
      rfl
    have e27 : (encode_track 9 0 0 [8, 0, 1, 2, 3, 4, 5, 6, 7] boot8).getD (i + 27) 0 = 0 := by
      rw [hgd 27 (by omega)]
      rfl
    have e19 : (encode_track 9 0 0 [8, 0, 1, 2, 3, 4, 5, 6, 7] boot8).getD (i + 19) 0 = 8 := by
      rw [hgd 19 (by omega)]
      rfl
    have e20 : (encode_track 9 0 0 [8, 0, 1, 2, 3, 4, 5, 6, 7] boot8).getD (i + 20) 0 = 0 := by
      rw [hgd 20 (by omega)]
      rfl
    simp only [readw, getD_drop_add, Nat.add_zero]
    rw [show i + 24 + 1 = i + 25 by omega, show i + 26 + 1 = i + 27 by omega,
      show i + 19 + 1 = i + 20 by omega]
    rw [e24, e25, e26, e27, e19, e20]
    rfl

/-- Witness for `st_msa_roundtrip_spec`: first sector of a 9-sector
track over a constant image. -/
theorem st_msa_roundtrip_spec_witness :
    ∃ i, find_sector (encode_track 9 0 0 ([] ++ 0 :: [1, 2, 3, 4, 5, 6, 7, 8])
        (List.replicate 4608 7)) 0 0 (0 + 1) = some i ∧
      ((encode_track 9 0 0 ([] ++ 0 :: [1, 2, 3, 4, 5, 6, 7, 8])
          (List.replicate 4608 7)).drop i).take 512 =
        sec_payload (List.replicate 4608 7) 0 :=
  st_msa_roundtrip_spec 9 0 0 [] [1, 2, 3, 4, 5, 6, 7, 8] 0 (List.replicate 4608 7)
    (by norm_num) (by rfl) (by omega) (by omega)
    (by intro o ho; simp at ho; omega)
    (by intro o ho; simp at ho)
    (by intro o ho
        simp only [List.length_replicate]
        simp at ho
        omega)

theorem ci_eq_iff (a b : List Nat) : ci_eq a b = true ↔ a.map low = b.map low := by
  simp [ci_eq]

theorem any_ci_eq_find (c : List Nat) (p : List Nat × FsNode → Bool) :
    ∀ cur : List (List Nat × FsNode),
    List.Pairwise (fun a b => ci_eq a.1 b.1 = false) cur →
    cur.any (fun e => ci_eq e.1 c && p e) =
      (match cur.find? (fun e => ci_eq e.1 c) with
       | some e => p e
       | none => false) := by
  intro cur
  induction cur with
  | nil => intro _; rfl
  | cons h t ih =>
    intro hp
    have hp1 : ∀ b ∈ t, ci_eq h.1 b.1 = false := (List.pairwise_cons.mp hp).1
    have hp2 : List.Pairwise (fun a b => ci_eq a.1 b.1 = false) t :=
      (List.pairwise_cons.mp hp).2
    by_cases hc : ci_eq h.1 c = true
    · rw [@List.find?_cons_of_pos _ (fun e : List Nat × FsNode => ci_eq e.1 c) h t hc]
      have htf : t.any (fun e => ci_eq e.1 c && p e) = false := by
        rw [List.any_eq_false]
        intro e he
        have h1 : ci_eq e.1 c = false := by
          by_contra h2
          simp only [Bool.not_eq_false] at h2
          have h3 : ci_eq h.1 e.1 = true := by
            rw [ci_eq_iff] at hc h2 ⊢
            rw [hc, h2]
          rw [hp1 e he] at h3
          exact Bool.false_ne_true h3
        simp [h1]
      simp [List.any_cons, hc, htf]
    · rw [@List.find?_cons_of_neg _ (fun e : List Nat × FsNode => ci_eq e.1 c) h t hc]
      rw [List.any_cons]
      have hcf : ci_eq h.1 c = false := by simpa using hc
      rw [hcf]
      simp only [Bool.false_and, Bool.false_or]
      exact ih hp2

theorem find_exact_ci (c : List Nat) :
    ∀ cur : List (List Nat × FsNode),
    List.Pairwise (fun a b => ci_eq a.1 b.1 = false) cur →
    ∀ e, cur.find? (fun x => x.1 == c) = some e →
      cur.find? (fun x => ci_eq x.1 c) = some e := by
  intro cur
  induction cur with
  | nil => intro _ e he; simp at he
  | cons h t ih =>
    intro hp e he
    have hp1 : ∀ b ∈ t, ci_eq h.1 b.1 = false := (List.pairwise_cons.mp hp).1
    have hp2 : List.Pairwise (fun a b => ci_eq a.1 b.1 = false) t :=
      (List.pairwise_cons.mp hp).2
    by_cases hex : (h.1 == c) = true
    · rw [@List.find?_cons_of_pos _ (fun x : List Nat × FsNode => x.1 == c) h t hex] at he
      have he2 : e = h := by simpa using he.symm
      subst he2
      have hc : ci_eq e.1 c = true := by
        rw [ci_eq_iff]
        have : e.1 = c := by simpa using hex
        rw [this]
      exact @List.find?_cons_of_pos _ (fun x : List Nat × FsNode => ci_eq x.1 c) e t hc
    · rw [@List.find?_cons_of_neg _ (fun x : List Nat × FsNode => x.1 == c) h t hex] at he
      have het : e ∈ t := List.mem_of_find?_eq_some he
      have hec := @List.find?_some _ (fun x : List Nat × FsNode => x.1 == c) e t he
      have hc : ci_eq h.1 c = false := by
        by_contra h2
        simp only [Bool.not_eq_false] at h2
        have h3 : ci_eq h.1 e.1 = true := by
          rw [ci_eq_iff] at h2 ⊢
          have he1 : e.1 = c := by simpa using hec
          rw [h2, he1]
        rw [hp1 e het] at h3
        exact Bool.false_ne_true h3
      rw [@List.find?_cons_of_neg _ (fun x : List Nat × FsNode => ci_eq x.1 c) h t
        (by simp [hc])]
      exact ih hp2 e he

theorem filename_lookup_eq_find (cur : List (List Nat × FsNode)) (c : List Nat)
    (hp : List.Pairwise (fun a b => ci_eq a.1 b.1 = false) cur) :
    filename_lookup cur c = cur.find? (fun e => ci_eq e.1 c) := by
  unfold filename_lookup
  cases hfe : cur.find? (fun e => e.1 == c) with
  | none => rfl
  | some e => exact (find_exact_ci c cur hp e hfe).symm

theorem path_walk_spec : ∀ (comps : List (List Nat)) (cur : List (List Nat × FsNode)),
    comps ≠ [] → Wf (.dir cur) →
    (path_walk cur comps = 1 ↔ ex_path cur comps node_is_file = true) ∧
    (path_walk cur comps = 0 ↔ ex_path cur comps node_is_dir = true) ∧
    (path_walk cur comps = 2 ↔ (ex_path cur comps.dropLast node_is_dir = true ∧
        ¬ (ex_path cur comps (fun _ => true) = true))) ∧
    (path_walk cur comps = -1 ↔ ¬ (ex_path cur comps.dropLast node_is_dir = true)) := by
  intro comps
  induction comps with
  | nil => intro cur h; exact absurd rfl h
  | cons c rest ih =>
    intro cur _ hwf
    have hp : List.Pairwise (fun a b => ci_eq a.1 b.1 = false) cur := by
      cases hwf with
      | dir es h1 h2 => exact h1
    have hch : ∀ e ∈ cur, Wf e.2 := by
      cases hwf with
      | dir es h1 h2 => exact h2
    have hfl := filename_lookup_eq_find cur c hp
    have hB := fun p => any_ci_eq_find c p cur hp
    cases rest with
    | nil =>
      have hw : path_walk cur [c] =
          (match cur.find? (fun e => ci_eq e.1 c) with
           | some (_, .file) => 1
           | some (_, .dir _) => 0
           | none => 2) := by
        unfold path_walk
        rw [hfl]
      have hex : ∀ p, ex_path cur [c] p =
          (match cur.find? (fun e => ci_eq e.1 c) with
           | some e => p e.2
           | none => false) := by
        intro p
        unfold ex_path
        exact hB (fun e => p e.2)
      have hdl : ([c] : List (List Nat)).dropLast = [] := rfl
      rw [hw, hdl]
      rcases hfind : cur.find? (fun e => ci_eq e.1 c) with _ | ⟨nm, n⟩
      · simp only [hex]
        simp only [hfind]
        simp only [ex_path, node_is_dir]
        norm_num
      · cases n with
        | file =>
          simp only [hex]
          simp only [hfind]
          simp only [ex_path, node_is_file, node_is_dir]
          norm_num
        | dir e2 =>
          simp only [hex]
          simp only [hfind]
          simp only [ex_path, node_is_file, node_is_dir]
          norm_num
    | cons r1 r2 =>
      have hex : ∀ p, ex_path cur (c :: r1 :: r2) p =
          (match cur.find? (fun e => ci_eq e.1 c) with
           | some e => (match e.2 with
              | .dir e2 => ex_path e2 (r1 :: r2) p
              | .file => false)
           | none => false) := by
        intro p
        have h0 : ex_path cur (c :: r1 :: r2) p =
            cur.any (fun e => ci_eq e.1 c &&
              (match e.2 with
               | FsNode.dir e2 => ex_path e2 (r1 :: r2) p
               | FsNode.file => false)) := rfl
        rw [h0]
        exact hB _
      have hdl : ((c :: r1 :: r2) : List (List Nat)).dropLast = c :: (r1 :: r2).dropLast := rfl
      have hexdl : ex_path cur (c :: (r1 :: r2).dropLast) node_is_dir =
          (match cur.find? (fun e => ci_eq e.1 c) with
           | some e => (match e.2 with
              | .dir e2 => ex_path e2 (r1 :: r2).dropLast node_is_dir
              | .file => false)
           | none => false) := by
        rcases hd2 : (r1 :: r2).dropLast with _ | ⟨d1, d2⟩
        · have h0 : ex_path cur [c] node_is_dir =
              cur.any (fun e => ci_eq e.1 c && node_is_dir e.2) := rfl
          rw [h0, hB (fun e => node_is_dir e.2)]
          rcases hfind2 : cur.find? (fun e => ci_eq e.1 c) with _ | ⟨nm, n⟩
          · simp [hfind2]
          · simp only [hfind2]
            cases n <;> rfl
        · have h0 : ex_path cur (c :: d1 :: d2) node_is_dir =
              cur.any (fun e => ci_eq e.1 c &&
                (match e.2 with
                 | FsNode.dir e2 => ex_path e2 (d1 :: d2) node_is_dir
                 | FsNode.file => false)) := rfl
          rw [h0]
          exact hB _
      rw [hdl]
      rcases hfind : cur.find? (fun e => ci_eq e.1 c) with _ | ⟨nm, n⟩
      · have hfl2 : filename_lookup cur c = none := by rw [hfl, hfind]
        simp only [path_walk, hfl2, hex, hexdl, hfind]
        norm_num
      · have hfl2 : filename_lookup cur c = some (nm, n) := by rw [hfl, hfind]
        cases n with
        | file =>
          simp only [path_walk, hfl2, hex, hexdl, hfind]
          norm_num
        | dir e2 =>
          have hwf2 : Wf (.dir e2) := hch (nm, FsNode.dir e2) (List.mem_of_find?_eq_some hfind)
          obtain ⟨i1, i0, i2, im⟩ := ih e2 (by simp) hwf2
          simp only [path_walk, hfl2, hex, hexdl, hfind]
          exact ⟨i1, i0, i2, im⟩

theorem path_walk_ne_neg2 : ∀ (comps : List (List Nat)) (cur : List (List Nat × FsNode)),
    path_walk cur comps ≠ -2 := by
  intro comps
  induction comps with
  | nil => intro cur; simp [path_walk]
  | cons c rest ih =>
    intro cur
    cases rest with
    | nil =>
      unfold path_walk
      rcases h2 : filename_lookup cur c with _ | ⟨nm, n⟩
      · simp
      · cases n <;> simp
    | cons r1 r2 =>
      unfold path_walk
      rcases h2 : filename_lookup cur c with _ | ⟨nm, n⟩
      · simp
      · cases n with
        | file => simp
        | dir e2 => simpa using ih e2

/-- C8 (amended). For absolute guest paths on a well-formed share: the
call is rejected with -2 iff a drive letter is present and differs from
the GEMDOS drive, or no drive letter is present and the current drive
differs from the GEMDOS drive (the current drive never rescues an
explicit letter); otherwise the result is 1 iff a case-insensitive match
of the full path exists as a file, 0 iff it exists as a directory, 2 iff
every parent resolves to a directory but the leaf does not exist, and
-1 iff some parent fails to resolve to a directory. -/
theorem path_lookup_spec (g c : Nat) (dr : Option Nat)
    (root : List (List Nat × FsNode)) (comps : List (List Nat))
    (hw : Wf (.dir root)) (hc : comps ≠ []) :
    (path_lookup g c dr root comps = -2 ↔
      ((∃ d, dr = some d ∧ d ≠ g) ∨ (dr = none ∧ ¬ c = g))) ∧
    (¬ path_lookup g c dr root comps = -2 →
      ((path_lookup g c dr root comps = 1 ↔ ex_path root comps node_is_file = true) ∧
       (path_lookup g c dr root comps = 0 ↔ ex_path root comps node_is_dir = true) ∧
       (path_lookup g c dr root comps = 2 ↔
          (ex_path root comps.dropLast node_is_dir = true ∧
            ¬ ex_path root comps (fun _ => true) = true)) ∧
       (path_lookup g c dr root comps = -1 ↔
          ¬ ex_path root comps.dropLast node_is_dir = true))) := by
  obtain ⟨i1, i0, i2, im⟩ := path_walk_spec comps root hc hw
  cases dr with
  | none =>
    by_cases hcg : c = g
    · have hpl : path_lookup g c none root comps = path_walk root comps := by
        unfold path_lookup
        rw [if_neg (by simp [hcg])]
      rw [hpl]
      refine ⟨?_, fun _ => ⟨i1, i0, i2, im⟩⟩
      constructor
      · intro h2; exact absurd h2 (path_walk_ne_neg2 comps root)
      · rintro (⟨d, hd, _⟩ | ⟨_, hne⟩)
        · exact absurd hd (by simp)
        · exact absurd hcg hne
    · have hpl : path_lookup g c none root comps = -2 := by
        unfold path_lookup
        rw [if_pos (by simp [hcg])]
      rw [hpl]
      refine ⟨⟨fun _ => Or.inr ⟨rfl, hcg⟩, fun _ => rfl⟩, fun h2 => absurd rfl h2⟩
  | some d =>
    by_cases hdg : d = g
    · have hpl : path_lookup g c (some d) root comps = path_walk root comps := by
        show (if d = g then path_walk root comps else -2) = path_walk root comps
        rw [if_pos hdg]
      rw [hpl]
      refine ⟨?_, fun _ => ⟨i1, i0, i2, im⟩⟩
      constructor
      · intro h2; exact absurd h2 (path_walk_ne_neg2 comps root)
      · rintro (⟨d2, hd2, hne⟩ | ⟨hnone, _⟩)
        · have : d2 = d := by simpa using hd2.symm
          subst this
          exact absurd hdg hne
        · exact absurd hnone (by simp)
    · have hpl : path_lookup g c (some d) root comps = -2 := by
        show (if d = g then path_walk root comps else -2) = -2
        rw [if_neg hdg]
      rw [hpl]
      exact ⟨⟨fun _ => Or.inl ⟨d, rfl, hdg⟩, fun _ => rfl⟩, fun h2 => absurd rfl h2⟩

/-- C8 (counterexample). The claimed -2 condition ("a drive-letter prefix
is present and matches neither the GEMDOS drive nor the current drive")
is wrong on both sides: with gemdos_drv = 2 and current_drv = 0, the
path \FOO with no drive letter at all returns -2, and the path A:\FOO,
whose letter matches the current drive, also returns -2, because
gemdos.c lines 399-409 compare only against gemdos_drv. -/
theorem path_lookup_claim_counterexample :
    path_lookup 2 0 none [] [[0x46, 0x4F, 0x4F]] = -2 ∧
    path_lookup 2 0 (some 0) [] [[0x46, 0x4F, 0x4F]] = -2 := ⟨rfl, rfl⟩

/-- Witness for `path_lookup_spec`: a one-file share FOO looked up as
foo on the managed drive. -/
theorem path_lookup_spec_witness :
    (path_lookup 0 0 none [([0x46, 0x4F, 0x4F], FsNode.file)] [[0x66, 0x6F, 0x6F]] = -2 ↔
      ((∃ d, (none : Option Nat) = some d ∧ d ≠ 0) ∨
        ((none : Option Nat) = none ∧ ¬ (0 : Nat) = 0))) ∧
    (¬ path_lookup 0 0 none [([0x46, 0x4F, 0x4F], FsNode.file)] [[0x66, 0x6F, 0x6F]] = -2 →
      ((path_lookup 0 0 none [([0x46, 0x4F, 0x4F], FsNode.file)] [[0x66, 0x6F, 0x6F]] = 1 ↔
          ex_path [([0x46, 0x4F, 0x4F], FsNode.file)] [[0x66, 0x6F, 0x6F]]
            node_is_file = true) ∧
       (path_lookup 0 0 none [([0x46, 0x4F, 0x4F], FsNode.file)] [[0x66, 0x6F, 0x6F]] = 0 ↔
          ex_path [([0x46, 0x4F, 0x4F], FsNode.file)] [[0x66, 0x6F, 0x6F]]
            node_is_dir = true) ∧
       (path_lookup 0 0 none [([0x46, 0x4F, 0x4F], FsNode.file)] [[0x66, 0x6F, 0x6F]] = 2 ↔
          (ex_path [([0x46, 0x4F, 0x4F], FsNode.file)]
              ([[0x66, 0x6F, 0x6F]] : List (List Nat)).dropLast node_is_dir = true ∧
            ¬ ex_path [([0x46, 0x4F, 0x4F], FsNode.file)] [[0x66, 0x6F, 0x6F]]
                (fun _ => true) = true)) ∧
       (path_lookup 0 0 none [([0x46, 0x4F, 0x4F], FsNode.file)] [[0x66, 0x6F, 0x6F]] = -1 ↔
          ¬ ex_path [([0x46, 0x4F, 0x4F], FsNode.file)]
              ([[0x66, 0x6F, 0x6F]] : List (List Nat)).dropLast node_is_dir = true))) :=
  path_lookup_spec 0 0 none [([0x46, 0x4F, 0x4F], FsNode.file)] [[0x66, 0x6F, 0x6F]]
    (Wf.dir _ (List.pairwise_singleton _ _)
      (by intro e he
          simp only [List.mem_singleton] at he
          rw [he]
          exact Wf.file))
    (by simp)

end Zest
